import Mathlib

/-!
Shallow embedding of `dbms/include/DB/Dictionaries/CacheDictionary.h`
(a fixed-capacity direct-mapped attribute cache) and verification of the
specification's claims about it.

Machine integers (`std::size_t`, `std::uint64_t`) are modelled as `Nat`
with explicit reduction modulo `2 ^ 64` at the points where the C++
arithmetic can wrap.  Time points (`std::chrono::system_clock::time_point`)
are modelled as `Nat` instants.
-/

namespace CacheDict

/-- The modulus of 64-bit machine arithmetic. -/
def W : Nat := 2 ^ 64

/-! ### `round_up_to_power_of_two` (CacheDictionary.h lines 501-513)

The C++ routine decrements, ORs in right-shifted copies of itself with
shifts 1, 2, 4, 8, 16, 32, and increments, all in `std::size_t`
arithmetic (64 bits, wrapping). -/

/-- One step `n |= n >> s` of the bit-smearing sequence. -/
def orShift (n s : Nat) : Nat := n ||| (n >>> s)

/-- The six `n |= n >> s` statements of `round_up_to_power_of_two`. -/
def spread (n : Nat) : Nat :=
  orShift (orShift (orShift (orShift (orShift (orShift n 1) 2) 4) 8) 16) 32

/-- `round_up_to_power_of_two` from the source: `--n` (wrapping), the six
OR-shift statements, `++n` (wrapping). -/
def round_up_to_power_of_two (n : Nat) : Nat :=
  (spread ((n + (W - 1)) % W) + 1) % W

/-- Window disjunction: some bit of `m` in positions `[i, i + w)` is set. -/
def winOr (m i w : Nat) : Prop := ∃ d, d < w ∧ m.testBit (i + d)

/-! ### Data model

`cell_metadata_t` (lines 141-145): a key (`0` = empty) and an expiry
instant.  The per-attribute state needed by `getItems<T>` is the typed
slot array, the typed `null_value`, and the construction-time lifetime
settings; the hash (`intHash64`, external to this file's source) is a
parameter of the model. -/

/-- `cell_metadata_t`: `id` and `expires_at`. -/
structure Cell where
  id : Nat
  expires_at : Nat
deriving DecidableEq

/-- The state visible to `getItems` for one attribute of type `α`:
capacity, hash function, lifetime settings, the cell array, the
attribute's slot array and its configured `null_value`.  Arrays are
total functions on slot indices. -/
structure Dict (α : Type) where
  size : Nat
  hash : Nat → Nat
  min_sec : Nat
  max_sec : Nat
  cells : Nat → Cell
  arr : Nat → α
  nullVal : α

variable {α : Type} {σ : Type}

/-- `getCellIdx` (lines 446-451): `intHash64(id) & (size - 1)`. -/
def getCellIdx (d : Dict α) (id : Nat) : Nat := d.hash id &&& (d.size - 1)

/-- `hasTimeExpired` (lines 238-241): `now() >= time_point`. -/
def hasTimeExpired (now t : Nat) : Bool := t ≤ now

/-- The stale-or-missing test `cell.id != id || hasTimeExpired(cell.expires_at)`
used by every read pass (lines 265, 320, 362). -/
def outdatedCell (d : Dict α) (now id : Nat) : Bool :=
  let cell := d.cells (getCellIdx d id)
  (cell.id != id) || hasTimeExpired now cell.expires_at

/-! ### The outdated-ids map

`HashMap<id_t, std::vector<std::size_t>>`: modelled as an association
list from a key to its recorded output positions; `addPos` is
`outdated_ids[id].push_back(i)`. -/

def addPos : List (Nat × List Nat) → Nat → Nat → List (Nat × List Nat)
  | [], k, i => [(k, [i])]
  | (k', ps) :: rest, k, i =>
      if k' = k then (k', ps ++ [i]) :: rest else (k', ps) :: addPos rest k i

/-- Positions recorded for key `k` (empty when absent). -/
def lookupPos (m : List (Nat × List Nat)) (k : Nat) : List Nat :=
  match m.find? (fun e => e.1 == k) with
  | some e => e.2
  | none => []

/-! ### Refresh (`update`, lines 398-444)

The source's block stream is modelled as the list of its rows, each a
key paired with the attribute value the block carries for it.  For each
row the engine writes the attribute slot (`setAttributeValue`), installs
the cell with a jittered expiry, and invokes the caller's callback with
the key and the cell index.  `nowAt i` is the clock at row `i` and
`jit i` the PRNG draw consumed by row `i`. -/

/-- Overwrite one attribute slot (`setAttributeValue` for this attribute). -/
def setArr (d : Dict α) (s : Nat) (v : α) : Dict α :=
  { d with arr := fun t => if t = s then v else d.arr t }

/-- Overwrite one cell. -/
def setCell (d : Dict α) (s : Nat) (c : Cell) : Dict α :=
  { d with cells := fun t => if t = s then c else d.cells t }

/-- `std::uniform_int_distribution<uint64>{min_sec, max_sec}` applied to
one PRNG draw `r`, added to the clock: the expiry installed at line 437. -/
def installExpiry (now min_sec max_sec r : Nat) : Nat :=
  now + (min_sec + r % (max_sec - min_sec + 1))

/-- `update` (lines 398-444): drain the rows, writing slot and cell and
invoking `on_cell_updated` after each row.  The callback may read the
freshly written dictionary state but mutates only its own state `σ`. -/
def update (nowAt jit : Nat → Nat) (onUpd : σ → Nat → Nat → Dict α → σ) :
    Dict α → List (Nat × α) → Nat → σ → Dict α × σ
  | d, [], _, s => (d, s)
  | d, (id, v) :: rest, i, s =>
      let cell_idx := getCellIdx d id
      let d1 := setArr d cell_idx v
      let d2 := setCell d1 cell_idx
        ⟨id, installExpiry (nowAt i) d.min_sec d.max_sec (jit i)⟩
      update nowAt jit onUpd d2 rest (i + 1) (onUpd s id cell_idx d2)

/-- The rows `loadIds(required_ids)` yields for a functional source that
knows a value for some keys and nothing for the others. -/
def rowsFor (src : Nat → Option α) (required : List Nat) : List (Nat × α) :=
  required.filterMap (fun k => (src k).map (fun v => (k, v)))

/-! ### Scalar read path (`getItems<T>`, lines 243-290)

`out` is the caller-supplied `PODArray<T>` written by plain indexing
(`out[i] = ...`), modelled with `List.set`; the indices written are
additionally collected in `written` (ghost instrumentation for the
bounds claim). -/

def readPassScalar (d : Dict α) (now : Nat) :
    List Nat → Nat → List α → List (Nat × List Nat) → List Nat →
    List α × List (Nat × List Nat) × List Nat
  | [], _, out, outd, written => (out, outd, written)
  | id :: rest, i, out, outd, written =>
    if id = 0 then
      readPassScalar d now rest (i + 1) (out.set i d.nullVal) outd (written ++ [i])
    else if outdatedCell d now id then
      readPassScalar d now rest (i + 1) (out.set i d.nullVal) (addPos outd id i)
        (written ++ [i])
    else
      readPassScalar d now rest (i + 1) (out.set i (d.arr (getCellIdx d id))) outd
        (written ++ [i])

/-- The `update` callback of the scalar `getItems` (lines 283-289): read
the freshly installed value and store it at every recorded position. -/
def scalarCb (outd : List (Nat × List Nat)) :
    List α × List Nat → Nat → Nat → Dict α → List α × List Nat
  | (out, written), id, cell_idx, d =>
      let v := d.arr cell_idx
      ((lookupPos outd id).foldl (fun o p => o.set p v) out,
        written ++ lookupPos outd id)

/-- Result of the scalar `getItems`: the output array, the unique ids
passed to `update` (empty when no refresh was triggered) and the ghost
list of indices written into `out`. -/
structure ScalarResult (α : Type) where
  out : List α
  refreshed : List Nat
  written : List Nat

/-- `getItems<T>` (lines 243-290). -/
def getItemsScalar (d : Dict α) (now : Nat) (nowAt jit : Nat → Nat)
    (src : Nat → Option α) (ids : List Nat) (out0 : List α) : ScalarResult α :=
  let r := readPassScalar d now ids 0 out0 [] []
  if r.2.1.isEmpty then ⟨r.1, [], r.2.2⟩
  else
    let required := r.2.1.map (fun e => e.1)
    let u := update nowAt jit (scalarCb r.2.1) d (rowsFor src required) 0 (r.1, r.2.2)
    ⟨u.2.1, required, u.2.2⟩

/-! ### String read path (`getItems` for `ColumnString`, lines 292-396)

The output `ColumnString` is modelled as the list of the strings handed
to `insertData`, in order.  The two auxiliary hash maps become
association lists; insertion prepends, lookup takes the first match
(last insert wins, as for `HashMap::operator[]` assignment). -/

/-- `map[id]` lookup. -/
def mfind (m : List (Nat × String)) (k : Nat) : Option String :=
  (m.find? (fun e => e.1 == k)).map (fun e => e.2)

/-- Optimistic pass (lines 303-331): emit values in order; on the first
stale/missing non-zero key abort with the flag set and the partial
output as accumulated so far. -/
def optimisticPass (d : Dict String) (now : Nat) :
    List Nat → List String → List String × Bool
  | [], out => (out, false)
  | id :: rest, out =>
    if id = 0 then optimisticPass d now rest (out ++ [d.nullVal])
    else if outdatedCell d now id then (out, true)
    else optimisticPass d now rest (out ++ [d.arr (getCellIdx d id)])

/-- `outdated_ids[id] += 1` on a `HashMap<id_t, std::size_t>`. -/
def addCount : List (Nat × Nat) → Nat → List (Nat × Nat)
  | [], k => [(k, 1)]
  | (k', c) :: rest, k =>
      if k' = k then (k', c + 1) :: rest else (k', c) :: addCount rest k

/-- Pessimistic collection pass (lines 347-371): count outdated keys,
remember every currently-resident string in `map`, and accumulate
`total_length` (one byte per entry reserved for a terminator). -/
def pessimisticCollect (d : Dict String) (now : Nat) :
    List Nat → List (Nat × Nat) → List (Nat × String) → Nat →
    List (Nat × Nat) × List (Nat × String) × Nat
  | [], outd, map, len => (outd, map, len)
  | id :: rest, outd, map, len =>
    if id = 0 then pessimisticCollect d now rest outd map (len + 1)
    else if outdatedCell d now id then
      pessimisticCollect d now rest (addCount outd id) map len
    else
      let s := d.arr (getCellIdx d id)
      pessimisticCollect d now rest outd ((id, s) :: map) (len + s.length + 1)

/-- The `update` callback of the string `getItems` (lines 380-385). -/
def stringCb :
    List (Nat × String) × Nat → Nat → Nat → Dict String →
    List (Nat × String) × Nat
  | (map, len), id, cell_idx, d =>
      let v := d.arr cell_idx
      ((id, v) :: map, len + v.length + 1)

/-- Final emission loop (lines 390-395): in original request order, emit
`map[id]` when present and the attribute's `null_value` otherwise. -/
def stringEmit (d : Dict String) (map : List (Nat × String)) (ids : List Nat) :
    List String :=
  ids.map (fun id =>
    match mfind map id with
    | some s => s
    | none => d.nullVal)

/-- Result of the string `getItems`: the emitted column and the unique
ids passed to `update`. -/
structure StringResult where
  out : List String
  refreshed : List Nat

/-- `getItems` for `ColumnString` (lines 292-396): optimistic pass, and
on failure the pessimistic collect / refresh / emit sequence. -/
def getItemsString (d : Dict String) (now : Nat) (nowAt jit : Nat → Nat)
    (src : Nat → Option String) (ids : List Nat) : StringResult :=
  let o := optimisticPass d now ids []
  if o.2 = false then ⟨o.1, []⟩
  else
    let p := pessimisticCollect d now ids [] [] 0
    if p.1.isEmpty then ⟨stringEmit d p.2.1 ids, []⟩
    else
      let required := p.1.map (fun e => e.1)
      let u := update nowAt jit stringCb d (rowsFor src required) 0 (p.2.1, p.2.2)
      ⟨stringEmit d u.2.1 ids, required⟩

/-! ### Attribute resolution and the typed getter prologue
(lines 103-138, 489-499)

Every `DECLARE_MULTIPLE_GETTER` instance resolves the attribute name,
compares the attribute's declared type with the getter's type, throws
`TYPE_MISMATCH` on disagreement, and only then runs `getItems` on the
shared cache state. -/

/-- `AttributeType` (the closed kind set). -/
inductive AttributeType
  | uint8 | uint16 | uint32 | uint64
  | int8 | int16 | int32 | int64
  | float32 | float64
  | string
deriving DecidableEq

/-- The error kinds thrown by this header. -/
inductive DictError
  | unsupportedSource
  | badArguments
  | typeMismatch
deriving DecidableEq

/-- `getAttributeIndex` (lines 489-499): look the name up in
`attribute_index_by_name`; throw `BAD_ARGUMENTS` when absent. -/
def getAttributeIndex (byName : List (String × Nat)) (nm : String) :
    Except DictError Nat :=
  match byName.find? (fun e => e.1 == nm) with
  | some e => Except.ok e.2
  | none => Except.error DictError.badArguments

/-- The prologue shared by every `DECLARE_MULTIPLE_GETTER` instance
(lines 104-112): resolve the index, then compare the declared type with
the getter's type `requested`. -/
def getterCheck (byName : List (String × Nat)) (types : List AttributeType)
    (requested : AttributeType) (nm : String) : Except DictError Nat :=
  match getAttributeIndex byName nm with
  | Except.error e => Except.error e
  | Except.ok idx =>
      if types.getD idx AttributeType.uint8 ≠ requested then
        Except.error DictError.typeMismatch
      else
        Except.ok idx

/-- A batched typed getter `get_T(attribute_name, ids, out)` over the
per-attribute cache states `atts`: the type-check prologue, then
`getItems` on the resolved attribute's state.  The prologue consults no
cache state, so a mismatch error is produced identically for every
`atts`/`now`/`src`/`out0`. -/
def getMultiple (byName : List (String × Nat)) (types : List AttributeType)
    (requested : AttributeType) (nm : String) (atts : Nat → Dict α)
    (now : Nat) (nowAt jit : Nat → Nat) (src : Nat → Option α)
    (ids : List Nat) (out0 : List α) : Except DictError (ScalarResult α) :=
  match getterCheck byName types requested nm with
  | Except.error e => Except.error e
  | Except.ok idx => Except.ok (getItemsScalar (atts idx) now nowAt jit src ids out0)

/-! ### `setAttributeValue` for strings (lines 467-485)

The source buffer of the incoming `String` is modelled as a total byte
function `data`; its meaningful bytes are `data 0 .. data (size-1)`.
The C++ copies with `std::copy(string.data(), string.data() + size + 1,
string_ptr)`, i.e. it reads `size + 1` bytes. -/

/-- The bytes `std::copy` reads from the source buffer: indices
`0 .. size` inclusive. -/
def copiedBytes (data : Nat → Nat) (size : Nat) : List Nat :=
  (List.range (size + 1)).map data

/-- An installed `StringRef`: owned bytes plus the stored length. -/
structure StringRefM where
  bytes : List Nat
  size : Nat
deriving DecidableEq

/-- The `AttributeType::string` arm of `setAttributeValue`
(lines 467-485): free the old buffer, and for `size > 0` allocate
`size + 1` bytes, copy `size + 1` bytes from the source buffer, and
install a `StringRef` of length `size`; for `size = 0` install the empty
sentinel. -/
def setAttributeValueString (data : Nat → Nat) (size : Nat) : StringRefM :=
  if 0 < size then ⟨copiedBytes data size, size⟩ else ⟨[], 0⟩

/-- Modelled from the spec: the copy the specification requires in its
place — exactly `size` bytes, never touching `data()[size]`. -/
def specCopiedBytes (data : Nat → Nat) (size : Nat) : List Nat :=
  (List.range size).map data


/-! ### Specification-side expected values

These definitions state what the claims say a batched getter must
return for one key; the theorems compare the embedded code against
them. -/

/-- What one scalar read-pass iteration stores for key `k`. -/
def readVal (d : Dict α) (now k : Nat) : α :=
  if k = 0 then d.nullVal
  else if outdatedCell d now k then d.nullVal
  else d.arr (getCellIdx d k)

/-- The value the claims say a scalar batched getter yields for key `k`:
the null value for key `0`, the resident value on a hit, the source's
value for a refreshed miss, and the null value for a miss the source
cannot resolve. -/
def expectedScalar (d : Dict α) (now : Nat) (src : Nat → Option α) (k : Nat) : α :=
  if k = 0 then d.nullVal
  else if outdatedCell d now k then
    match src k with
    | some v => v
    | none => d.nullVal
  else d.arr (getCellIdx d k)

/-- The value the claims say `get_string` yields for key `k`. -/
def expectedString (d : Dict String) (now : Nat) (src : Nat → Option String)
    (k : Nat) : String :=
  if k = 0 then d.nullVal
  else if outdatedCell d now k then
    match src k with
    | some v => v
    | none => d.nullVal
  else d.arr (getCellIdx d k)

/-- The output positions at which a batch starting at index `i0` holds
key `k`. -/
def posOf (k : Nat) : List Nat → Nat → List Nat
  | [], _ => []
  | id :: rest, i0 => (if id = k then [i0] else []) ++ posOf k rest (i0 + 1)

/-! ### Concrete fixtures used by the witness theorems -/

/-- An empty cache state over `Nat` values: capacity 4, identity hash,
lifetime (10, 10). -/
def exNatDict : Dict Nat :=
  ⟨4, fun n => n, 10, 10, fun _ => ⟨0, 0⟩, fun _ => 0, 0⟩

/-- A `Nat` cache state in which key 1 is resident at slot 1 with value 7
and expiry 200. -/
def exNatDictHit : Dict Nat :=
  ⟨4, fun n => n, 10, 10, fun s => if s = 1 then ⟨1, 200⟩ else ⟨0, 0⟩,
    fun s => if s = 1 then 7 else 0, 0⟩

/-- A string cache state in which key 1 is resident at slot 1 with value
"v1" and expiry 200. -/
def exStrDict : Dict String :=
  ⟨4, fun n => n, 10, 10, fun s => if s = 1 then ⟨1, 200⟩ else ⟨0, 0⟩,
    fun s => if s = 1 then "v1" else "", "snull"⟩

/-- A source buffer whose every byte is 7. -/
def exBufA : Nat → Nat := fun _ => 7

/-- A source buffer that agrees with `exBufA` on byte 0 and differs at
byte 1. -/
def exBufB : Nat → Nat := fun i => if i = 0 then 7 else 9

/-! ## Theorems -/

theorem winOr_one {m i : Nat} : winOr m i 1 ↔ m.testBit i = true := by
  constructor
  · rintro ⟨d, hd, hbit⟩
    interval_cases d
    simpa using hbit
  · intro h
    exact ⟨0, Nat.zero_lt_one, by simpa using h⟩

theorem winOr_double {m i w : Nat} :
    winOr m i (2 * w) ↔ (winOr m i w ∨ winOr m (i + w) w) := by
  constructor
  · rintro ⟨d, hd, hbit⟩
    by_cases hw : d < w
    · exact Or.inl ⟨d, hw, hbit⟩
    · refine Or.inr ⟨d - w, by omega, ?_⟩
      have : i + w + (d - w) = i + d := by omega
      rw [this]
      exact hbit
  · rintro (⟨d, hd, hbit⟩ | ⟨d, hd, hbit⟩)
    · exact ⟨d, by omega, hbit⟩
    · refine ⟨w + d, by omega, ?_⟩
      have : i + (w + d) = i + w + d := by omega
      rw [this]
      exact hbit

theorem testBit_orShift (x s i : Nat) :
    (orShift x s).testBit i = (x.testBit i || x.testBit (i + s)) := by
  simp [orShift, Nat.testBit_or, Nat.testBit_shiftRight, Nat.add_comm s i]

/-- One OR-shift step doubles the window covered by every output bit. -/
theorem orShift_window {x m w : Nat}
    (h : ∀ i, x.testBit i = true ↔ winOr m i w) :
    ∀ i, (orShift x w).testBit i = true ↔ winOr m i (2 * w) := by
  intro i
  rw [testBit_orShift, Bool.or_eq_true, h i, h (i + w), winOr_double]

theorem spread_window (m : Nat) :
    ∀ i, (spread m).testBit i = true ↔ winOr m i 64 := by
  have h1 : ∀ i, m.testBit i = true ↔ winOr m i 1 := fun i => winOr_one.symm
  have h2 := orShift_window h1
  have h4 := orShift_window h2
  have h8 := orShift_window h4
  have h16 := orShift_window h8
  have h32 := orShift_window h16
  have h64 := orShift_window h32
  intro i
  simpa [spread] using h64 i

/-- For `m < 2 ^ 64`, a set bit in the 64-wide window above `i` exists
iff `2 ^ i ≤ m`. -/
theorem winOr_iff_le {m i : Nat} (hm : m < 2 ^ 64) :
    winOr m i 64 ↔ 2 ^ i ≤ m := by
  constructor
  · rintro ⟨d, _, hbit⟩
    calc 2 ^ i ≤ 2 ^ (i + d) := Nat.pow_le_pow_right (by norm_num) (by omega)
    _ ≤ m := Nat.testBit_implies_ge hbit
  · intro hle
    have hne : m ≠ 0 := by
      have : 0 < 2 ^ i := Nat.pos_pow_of_pos i (by norm_num)
      omega
    obtain ⟨j, hbit, htop⟩ := Nat.exists_most_significant_bit hne
    have hjlt : j < 64 := by
      have h2j : 2 ^ j ≤ m := Nat.testBit_implies_ge hbit
      by_contra hc
      have : (64 : Nat) ≤ j := by omega
      have : 2 ^ 64 ≤ 2 ^ j := Nat.pow_le_pow_right (by norm_num) this
      omega
    have hij : i ≤ j := by
      by_contra hc
      have hji : j < i := by omega
      have : m < 2 ^ i := by
        apply Nat.lt_pow_two_of_testBit
        intro l hl
        exact htop l (by omega)
      omega
    refine ⟨j - i, by omega, ?_⟩
    have : i + (j - i) = j := by omega
    rw [this]
    exact hbit

/-- For `m < 2 ^ 64`, the OR-smearing fills in every bit below the most
significant one: `spread m = 2 ^ (size m) - 1`. -/
theorem spread_eq {m : Nat} (hm : m < 2 ^ 64) :
    spread m = 2 ^ Nat.size m - 1 := by
  apply Nat.eq_of_testBit_eq
  intro i
  rw [Nat.testBit_two_pow_sub_one]
  by_cases h : 2 ^ i ≤ m
  · have : (spread m).testBit i = true :=
      (spread_window m i).mpr ((winOr_iff_le hm).mpr h)
    rw [this]
    have : i < Nat.size m := Nat.lt_size.mpr h
    simp [this]
  · have : ¬ (spread m).testBit i = true := fun hc =>
      h ((winOr_iff_le hm).mp ((spread_window m i).mp hc))
    rw [Bool.not_eq_true] at this
    rw [this]
    have : ¬ i < Nat.size m := fun hc => h (Nat.lt_size.mp hc)
    simp [this]

/-- On the specified domain `1 ≤ n ≤ 2 ^ 63` the routine returns
`2 ^ size (n - 1)`. -/
theorem round_up_eq {n : Nat} (h1 : 1 ≤ n) (h2 : n ≤ 2 ^ 63) :
    round_up_to_power_of_two n = 2 ^ Nat.size (n - 1) := by
  have hW : W = 2 ^ 64 := rfl
  have hdec : (n + (W - 1)) % W = n - 1 := by
    have hn64 : n < 2 ^ 64 := by
      have : (2 : Nat) ^ 63 < 2 ^ 64 := by norm_num
      omega
    have : n + (W - 1) = W + (n - 1) := by
      have : 0 < W := by rw [hW]; positivity
      omega
    rw [this, Nat.add_mod_left]
    apply Nat.mod_eq_of_lt
    rw [hW]; omega
  rw [round_up_to_power_of_two, hdec]
  have hm : n - 1 < 2 ^ 64 := by
    have : (2 : Nat) ^ 63 < 2 ^ 64 := by norm_num
    omega
  rw [spread_eq hm]
  have hsize : Nat.size (n - 1) ≤ 63 := by
    rw [Nat.size_le]
    have : n - 1 < 2 ^ 63 := by omega
    exact this
  have hpow_pos : 0 < 2 ^ Nat.size (n - 1) := Nat.pos_pow_of_pos _ (by norm_num)
  have hpow_le : 2 ^ Nat.size (n - 1) ≤ 2 ^ 63 :=
    Nat.pow_le_pow_right (by norm_num) hsize
  have : 2 ^ Nat.size (n - 1) - 1 + 1 = 2 ^ Nat.size (n - 1) := by omega
  rw [this]
  apply Nat.mod_eq_of_lt
  rw [hW]
  have : (2 : Nat) ^ 63 < 2 ^ 64 := by norm_num
  omega


/-! ### Structural lemmas about the cache state -/

theorem getCellIdx_setArr (d : Dict α) (s : Nat) (v : α) (k : Nat) :
    getCellIdx (setArr d s v) k = getCellIdx d k := rfl

theorem getCellIdx_setCell (d : Dict α) (s : Nat) (c : Cell) (k : Nat) :
    getCellIdx (setCell d s c) k = getCellIdx d k := rfl

theorem update_preserves (nowAt jit : Nat → Nat) (onUpd : σ → Nat → Nat → Dict α → σ)
    (rows : List (Nat × α)) :
    ∀ (d : Dict α) (i : Nat) (s : σ),
      (update nowAt jit onUpd d rows i s).1.size = d.size ∧
      (update nowAt jit onUpd d rows i s).1.hash = d.hash ∧
      (update nowAt jit onUpd d rows i s).1.min_sec = d.min_sec ∧
      (update nowAt jit onUpd d rows i s).1.max_sec = d.max_sec ∧
      (update nowAt jit onUpd d rows i s).1.nullVal = d.nullVal := by
  induction rows with
  | nil => intro d i s; exact ⟨rfl, rfl, rfl, rfl, rfl⟩
  | cons r rest ih =>
      intro d i s
      obtain ⟨k, v⟩ := r
      simpa [update, setArr, setCell] using
        ih (setCell (setArr d (getCellIdx d k) v) (getCellIdx d k)
          ⟨k, installExpiry (nowAt i) d.min_sec d.max_sec (jit i)⟩) (i + 1) _

theorem getCellIdx_update (nowAt jit : Nat → Nat) (onUpd : σ → Nat → Nat → Dict α → σ)
    (rows : List (Nat × α)) (d : Dict α) (i : Nat) (s : σ) (k : Nat) :
    getCellIdx (update nowAt jit onUpd d rows i s).1 k = getCellIdx d k := by
  obtain ⟨h1, h2, -⟩ := update_preserves nowAt jit onUpd rows d i s
  simp [getCellIdx, h1, h2]

/-! ### `posOf` lemmas -/

theorem posOf_mem (k : Nat) :
    ∀ (ids : List Nat) (i0 j : Nat),
      j ∈ posOf k ids i0 ↔ ∃ p, ∃ hp : p < ids.length, ids.get ⟨p, hp⟩ = k ∧ j = i0 + p := by
  intro ids
  induction ids with
  | nil => simp [posOf]
  | cons id rest ih =>
      intro i0 j
      simp only [posOf, List.mem_append]
      constructor
      · rintro (h | h)
        · refine ⟨0, by simp, ?_, ?_⟩
          · by_cases hid : id = k
            · simpa using hid
            · simp [hid] at h
          · by_cases hid : id = k
            · simp [hid] at h; omega
            · simp [hid] at h
        · obtain ⟨p, hp, hk, hj⟩ := (ih (i0 + 1) j).mp h
          exact ⟨p + 1, by simpa using Nat.succ_lt_succ hp, by simpa using hk, by omega⟩
      · rintro ⟨p, hp, hk, hj⟩
        cases p with
        | zero =>
            left
            simp at hk
            simp [hk, hj]
        | succ q =>
            right
            refine (ih (i0 + 1) j).mpr ⟨q, by simpa using Nat.lt_of_succ_lt_succ hp, ?_, by omega⟩
            simpa using hk

theorem posOf_lt (k : Nat) :
    ∀ (ids : List Nat) (i0 j : Nat), j ∈ posOf k ids i0 → i0 ≤ j ∧ j < i0 + ids.length := by
  intro ids i0 j h
  obtain ⟨p, hp, -, hj⟩ := (posOf_mem k ids i0 j).mp h
  omega

theorem posOf_disjoint {k k' : Nat} {ids : List Nat} {i0 j : Nat}
    (h : j ∈ posOf k ids i0) (h' : j ∈ posOf k' ids i0) : k = k' := by
  obtain ⟨p, hp, hk, hj⟩ := (posOf_mem k ids i0 j).mp h
  obtain ⟨p', hp', hk', hj'⟩ := (posOf_mem k' ids i0 j).mp h'
  have : p = p' := by omega
  subst this
  rw [← hk, ← hk']

/-! ### `addPos` / `lookupPos` lemmas -/

theorem lookupPos_nil (k : Nat) : lookupPos [] k = [] := rfl

theorem lookupPos_addPos_self (m : List (Nat × List Nat)) (k i : Nat) :
    lookupPos (addPos m k i) k = lookupPos m k ++ [i] := by
  induction m with
  | nil => simp [addPos, lookupPos]
  | cons e rest ih =>
      obtain ⟨k', ps⟩ := e
      by_cases h : k' = k
      · subst h
        simp [addPos, lookupPos]
      · have hne : (k' == k) = false := by simpa using h
        simp [addPos, h, lookupPos, hne]
        simpa [lookupPos] using ih

theorem lookupPos_addPos_ne (m : List (Nat × List Nat)) (k i k' : Nat) (h : k' ≠ k) :
    lookupPos (addPos m k i) k' = lookupPos m k' := by
  induction m with
  | nil =>
      have : (k == k') = false := by simpa using fun hc => h hc.symm
      simp [addPos, lookupPos, this]
  | cons e rest ih =>
      obtain ⟨k0, ps⟩ := e
      by_cases h0 : k0 = k
      · subst h0
        have : (k0 == k') = false := by simpa using fun hc => h hc.symm
        simp [addPos, lookupPos, this]
      · by_cases h1 : k0 = k'
        · subst h1
          simp [addPos, h0, lookupPos]
        · have : (k0 == k') = false := by simpa using h1
          simp [addPos, h0, lookupPos, this]
          simpa [lookupPos] using ih

theorem addPos_keys (m : List (Nat × List Nat)) (k i : Nat) :
    (addPos m k i).map (fun e => e.1) =
      if k ∈ m.map (fun e => e.1) then m.map (fun e => e.1)
      else m.map (fun e => e.1) ++ [k] := by
  induction m with
  | nil => simp [addPos]
  | cons e rest ih =>
      obtain ⟨k0, ps⟩ := e
      by_cases h0 : k0 = k
      · subst h0
        simp [addPos]
      · have hne : ¬ k = k0 := fun hc => h0 hc.symm
        by_cases hk : k ∈ rest.map (fun e => e.1)
        · simp [addPos, h0, ih, hk, hne]
        · simp [addPos, h0, ih, hk, hne]

theorem addPos_keys_nodup (m : List (Nat × List Nat)) (k i : Nat)
    (h : (m.map (fun e => e.1)).Nodup) : ((addPos m k i).map (fun e => e.1)).Nodup := by
  rw [addPos_keys]
  by_cases hk : k ∈ m.map (fun e => e.1)
  · simpa [hk] using h
  · simp only [hk, if_false]
    rw [List.nodup_append]
    refine ⟨h, List.nodup_singleton k, ?_⟩
    intro a ha hc
    simp at hc
    subst hc
    exact hk ha

theorem lookupPos_ne_imp_mem (m : List (Nat × List Nat)) (k : Nat)
    (h : lookupPos m k ≠ []) : k ∈ m.map (fun e => e.1) := by
  induction m with
  | nil => simp [lookupPos] at h
  | cons e rest ih =>
      obtain ⟨k0, ps⟩ := e
      by_cases h0 : k0 = k
      · subst h0; simp
      · have : (k0 == k) = false := by simpa using h0
        simp [lookupPos, this] at h
        simpa using Or.inr (ih (by simpa [lookupPos] using h))

/-! ### `readPassScalar` characterization -/

theorem readPassScalar_length (d : Dict α) (now : Nat) :
    ∀ (ids : List Nat) (i0 : Nat) (out : List α) (outd : List (Nat × List Nat))
      (written : List Nat),
      (readPassScalar d now ids i0 out outd written).1.length = out.length := by
  intro ids
  induction ids with
  | nil => intro i0 out outd written; rfl
  | cons id rest ih =>
      intro i0 out outd written
      by_cases h0 : id = 0
      · simp [readPassScalar, h0, ih]
      · by_cases h1 : outdatedCell d now id
        · simp [readPassScalar, h0, h1, ih]
        · simp [readPassScalar, h0, h1, ih]

theorem readPassScalar_below (d : Dict α) (now : Nat) :
    ∀ (ids : List Nat) (i0 : Nat) (out : List α) (outd : List (Nat × List Nat))
      (written : List Nat) (j : Nat), j < i0 →
      (readPassScalar d now ids i0 out outd written).1[j]? = out[j]? := by
  intro ids
  induction ids with
  | nil => intro i0 out outd written j hj; rfl
  | cons id rest ih =>
      intro i0 out outd written j hj
      have hset : ∀ v : α, (out.set i0 v)[j]? = out[j]? := fun v =>
        List.getElem?_set_ne (by omega)
      by_cases h0 : id = 0
      · simp only [readPassScalar, h0, if_true]
        rw [ih (i0 + 1) _ _ _ j (by omega), hset]
      · by_cases h1 : outdatedCell d now id
        · simp only [readPassScalar, h0, if_false, h1, if_true]
          rw [ih (i0 + 1) _ _ _ j (by omega), hset]
        · simp only [readPassScalar, h0, if_false, h1, Bool.false_eq_true]
          rw [ih (i0 + 1) _ _ _ j (by omega), hset]

theorem readPassScalar_out (d : Dict α) (now : Nat) :
    ∀ (ids : List Nat) (i0 : Nat) (out : List α) (outd : List (Nat × List Nat))
      (written : List Nat) (p : Nat) (hp : p < ids.length), i0 + p < out.length →
      (readPassScalar d now ids i0 out outd written).1[i0 + p]? =
        some (readVal d now (ids.get ⟨p, hp⟩)) := by
  intro ids
  induction ids with
  | nil => intro i0 out outd written p hp; exact absurd hp (by simp)
  | cons id rest ih =>
      intro i0 out outd written p hp hlen
      cases p with
      | zero =>
          have hv : ∀ v : α, (out.set i0 v)[i0]? = some v := fun v =>
            List.getElem?_set_self (by omega)
          by_cases h0 : id = 0
          · simp only [readPassScalar, h0, if_true]
            have hb := readPassScalar_below d now rest (i0 + 1) (out.set i0 d.nullVal)
              outd (written ++ [i0]) i0 (by omega)
            rw [hv] at hb
            simpa [readVal, h0] using hb
          · by_cases h1 : outdatedCell d now id
            · simp only [readPassScalar, h0, if_false, h1, if_true]
              have hb := readPassScalar_below d now rest (i0 + 1) (out.set i0 d.nullVal)
                (addPos outd id i0) (written ++ [i0]) i0 (by omega)
              rw [hv] at hb
              simpa [readVal, h0, h1] using hb
            · simp only [readPassScalar, h0, if_false, h1, Bool.false_eq_true]
              have hb := readPassScalar_below d now rest (i0 + 1)
                (out.set i0 (d.arr (getCellIdx d id))) outd (written ++ [i0]) i0 (by omega)
              rw [hv] at hb
              simpa [readVal, h0, h1] using hb
      | succ q =>
          have hq : q < rest.length := by simpa using Nat.lt_of_succ_lt_succ hp
          have harith : i0 + (q + 1) = (i0 + 1) + q := by omega
          have hlen' : ∀ v : α, (i0 + 1) + q < (out.set i0 v).length := by
            intro v; simpa using (by omega : (i0 + 1) + q < out.length)
          by_cases h0 : id = 0
          · simp only [readPassScalar, h0, if_true]
            rw [harith, ih (i0 + 1) _ _ _ q hq (hlen' _)]
            rfl
          · by_cases h1 : outdatedCell d now id
            · simp only [readPassScalar, h0, if_false, h1, if_true]
              rw [harith, ih (i0 + 1) _ _ _ q hq (hlen' _)]
              rfl
            · simp only [readPassScalar, h0, if_false, h1, Bool.false_eq_true]
              rw [harith, ih (i0 + 1) _ _ _ q hq (hlen' _)]
              rfl

theorem readPassScalar_outd (d : Dict α) (now : Nat) :
    ∀ (ids : List Nat) (i0 : Nat) (out : List α) (outd : List (Nat × List Nat))
      (written : List Nat) (k : Nat),
      lookupPos (readPassScalar d now ids i0 out outd written).2.1 k =
        lookupPos outd k ++
          (if k ≠ 0 ∧ outdatedCell d now k = true then posOf k ids i0 else []) := by
  intro ids
  induction ids with
  | nil =>
      intro i0 out outd written k
      by_cases h : k ≠ 0 ∧ outdatedCell d now k = true <;> simp [readPassScalar, posOf, h]
  | cons id rest ih =>
      intro i0 out outd written k
      by_cases h0 : id = 0
      · subst h0
        simp only [readPassScalar, if_true]
        rw [ih]
        by_cases hc : k ≠ 0 ∧ outdatedCell d now k = true
        · have : (0 : Nat) = k ↔ False := by
            constructor
            · intro h; exact hc.1 h.symm
            · intro h; exact h.elim
          simp [hc, posOf, this]
        · simp [hc]
      · by_cases h1 : outdatedCell d now id
        · simp only [readPassScalar, h0, if_false, h1, if_true]
          rw [ih]
          by_cases hk : k = id
          · subst hk
            have hc : k ≠ 0 ∧ outdatedCell d now k = true := ⟨h0, h1⟩
            simp [hc, posOf, lookupPos_addPos_self, List.append_assoc]
          · rw [lookupPos_addPos_ne _ _ _ _ hk]
            by_cases hc : k ≠ 0 ∧ outdatedCell d now k = true
            · have : id = k ↔ False := by
                constructor
                · intro h; exact hk h.symm
                · intro h; exact h.elim
              simp [hc, posOf, this]
            · simp [hc]
        · simp only [readPassScalar, h0, if_false, h1, Bool.false_eq_true, if_false]
          rw [ih]
          by_cases hc : k ≠ 0 ∧ outdatedCell d now k = true
          · have hk : ¬ id = k := by
              intro h
              subst h
              exact absurd hc.2 (by simpa using h1)
            simp [hc, posOf, hk]
          · simp [hc]

theorem readPassScalar_keys (d : Dict α) (now : Nat) :
    ∀ (ids : List Nat) (i0 : Nat) (out : List α) (outd : List (Nat × List Nat))
      (written : List Nat) (k : Nat),
      k ∈ (readPassScalar d now ids i0 out outd written).2.1.map (fun e => e.1) ↔
        k ∈ outd.map (fun e => e.1) ∨
          (k ≠ 0 ∧ outdatedCell d now k = true ∧ k ∈ ids) := by
  intro ids
  induction ids with
  | nil =>
      intro i0 out outd written k
      simp [readPassScalar]
  | cons id rest ih =>
      intro i0 out outd written k
      by_cases h0 : id = 0
      · subst h0
        simp only [readPassScalar, if_true]
        rw [ih]
        constructor
        · rintro (h | ⟨h1, h2, h3⟩)
          · exact Or.inl h
          · exact Or.inr ⟨h1, h2, List.mem_cons_of_mem _ h3⟩
        · rintro (h | ⟨h1, h2, h3⟩)
          · exact Or.inl h
          · rcases List.mem_cons.mp h3 with h | h
            · exact absurd h h1
            · exact Or.inr ⟨h1, h2, h⟩
      · by_cases h1 : outdatedCell d now id
        · simp only [readPassScalar, h0, if_false, h1, if_true]
          rw [ih]
          have hmem : ∀ k', k' ∈ (addPos outd id i0).map (fun e => e.1) ↔
              k' ∈ outd.map (fun e => e.1) ∨ k' = id := by
            intro k'
            rw [addPos_keys]
            by_cases hi : id ∈ outd.map (fun e => e.1)
            · simp only [hi, if_true]
              constructor
              · exact Or.inl
              · rintro (h | h)
                · exact h
                · exact h ▸ hi
            · simp [hi]
          rw [hmem]
          constructor
          · rintro ((h | h) | ⟨ha, hb, hc⟩)
            · exact Or.inl h
            · exact Or.inr ⟨h ▸ h0, h ▸ h1, h ▸ List.mem_cons_self _ _⟩
            · exact Or.inr ⟨ha, hb, List.mem_cons_of_mem _ hc⟩
          · rintro (h | ⟨ha, hb, hc⟩)
            · exact Or.inl (Or.inl h)
            · rcases List.mem_cons.mp hc with h | h
              · exact Or.inl (Or.inr h)
              · exact Or.inr ⟨ha, hb, h⟩
        · simp only [readPassScalar, h0, if_false, h1, Bool.false_eq_true, if_false]
          rw [ih]
          constructor
          · rintro (h | ⟨ha, hb, hc⟩)
            · exact Or.inl h
            · exact Or.inr ⟨ha, hb, List.mem_cons_of_mem _ hc⟩
          · rintro (h | ⟨ha, hb, hc⟩)
            · exact Or.inl h
            · rcases List.mem_cons.mp hc with h | h
              · exact absurd (h ▸ hb) (by simpa using h1)
              · exact Or.inr ⟨ha, hb, h⟩

theorem readPassScalar_keys_nodup (d : Dict α) (now : Nat) :
    ∀ (ids : List Nat) (i0 : Nat) (out : List α) (outd : List (Nat × List Nat))
      (written : List Nat), (outd.map (fun e => e.1)).Nodup →
      ((readPassScalar d now ids i0 out outd written).2.1.map (fun e => e.1)).Nodup := by
  intro ids
  induction ids with
  | nil => intro i0 out outd written h; exact h
  | cons id rest ih =>
      intro i0 out outd written h
      by_cases h0 : id = 0
      · simp only [readPassScalar, h0, if_true]
        exact ih (i0 + 1) _ _ _ h
      · by_cases h1 : outdatedCell d now id
        · simp only [readPassScalar, h0, if_false, h1, if_true]
          exact ih (i0 + 1) _ _ _ (addPos_keys_nodup _ _ _ h)
        · simp only [readPassScalar, h0, if_false, h1, Bool.false_eq_true, if_false]
          exact ih (i0 + 1) _ _ _ h

theorem readPassScalar_written (d : Dict α) (now : Nat) :
    ∀ (ids : List Nat) (i0 : Nat) (out : List α) (outd : List (Nat × List Nat))
      (written : List Nat),
      (readPassScalar d now ids i0 out outd written).2.2 =
        written ++ List.range' i0 ids.length := by
  intro ids
  induction ids with
  | nil => intro i0 out outd written; simp [readPassScalar]
  | cons id rest ih =>
      intro i0 out outd written
      by_cases h0 : id = 0
      · simp only [readPassScalar, h0, if_true]
        rw [ih]
        simp [List.length_cons, List.range'_succ]
      · by_cases h1 : outdatedCell d now id
        · simp only [readPassScalar, h0, if_false, h1, if_true]
          rw [ih]
          simp [List.length_cons, List.range'_succ]
        · simp only [readPassScalar, h0, if_false, h1, Bool.false_eq_true, if_false]
          rw [ih]
          simp [List.length_cons, List.range'_succ]

/-! ### `update` with the scalar callback -/

theorem setArr_arr (d : Dict α) (s : Nat) (v : α) (t : Nat) :
    (setArr d s v).arr t = if t = s then v else d.arr t := rfl

theorem setCell_arr (d : Dict α) (s : Nat) (c : Cell) : (setCell d s c).arr = d.arr := rfl

theorem setCell_cells (d : Dict α) (s : Nat) (c : Cell) (t : Nat) :
    (setCell d s c).cells t = if t = s then c else d.cells t := rfl

theorem setArr_cells (d : Dict α) (s : Nat) (v : α) : (setArr d s v).cells = d.cells := rfl

theorem setArr_nullVal (d : Dict α) (s : Nat) (v : α) :
    (setArr d s v).nullVal = d.nullVal := rfl

theorem setCell_nullVal (d : Dict α) (s : Nat) (c : Cell) :
    (setCell d s c).nullVal = d.nullVal := rfl

theorem foldlSet_length (v : α) :
    ∀ (ps : List Nat) (o : List α), (ps.foldl (fun o p => o.set p v) o).length = o.length := by
  intro ps
  induction ps with
  | nil => intro o; rfl
  | cons p rest ih => intro o; simp [ih]

theorem foldlSet_not_mem (v : α) :
    ∀ (ps : List Nat) (o : List α) (j : Nat), j ∉ ps →
      (ps.foldl (fun o p => o.set p v) o)[j]? = o[j]? := by
  intro ps
  induction ps with
  | nil => intro o j h; rfl
  | cons p rest ih =>
      intro o j h
      have hj : j ≠ p := fun hc => h (hc ▸ List.mem_cons_self _ _)
      have hrest : j ∉ rest := fun hc => h (List.mem_cons_of_mem _ hc)
      simp only [List.foldl_cons]
      rw [ih _ _ hrest, List.getElem?_set_ne (fun hc => hj hc.symm)]

theorem foldlSet_mem (v : α) :
    ∀ (ps : List Nat) (o : List α) (j : Nat), j ∈ ps → j < o.length →
      (ps.foldl (fun o p => o.set p v) o)[j]? = some v := by
  intro ps
  induction ps with
  | nil => intro o j h; exact absurd h (by simp)
  | cons p rest ih =>
      intro o j h hlen
      simp only [List.foldl_cons]
      by_cases hrest : j ∈ rest
      · exact ih _ _ hrest (by simpa using hlen)
      · have hj : j = p := by
          rcases List.mem_cons.mp h with h | h
          · exact h
          · exact absurd h hrest
        subst hj
        rw [foldlSet_not_mem v rest _ _ hrest, List.getElem?_set_self hlen]

theorem update_scalarCb_length (nowAt jit : Nat → Nat) (outd : List (Nat × List Nat)) :
    ∀ (rows : List (Nat × α)) (d : Dict α) (i0 : Nat) (out : List α) (written : List Nat),
      (update nowAt jit (scalarCb outd) d rows i0 (out, written)).2.1.length = out.length := by
  intro rows
  induction rows with
  | nil => intro d i0 out written; rfl
  | cons r rest ih =>
      intro d i0 out written
      obtain ⟨k, v⟩ := r
      simp only [update, scalarCb]
      rw [ih]
      exact foldlSet_length _ _ _

theorem update_scalarCb_untouched (nowAt jit : Nat → Nat) (outd : List (Nat × List Nat)) :
    ∀ (rows : List (Nat × α)) (d : Dict α) (i0 : Nat) (out : List α) (written : List Nat)
      (j : Nat), (∀ k, k ∈ rows.map (fun r => r.1) → j ∉ lookupPos outd k) →
      (update nowAt jit (scalarCb outd) d rows i0 (out, written)).2.1[j]? = out[j]? := by
  intro rows
  induction rows with
  | nil => intro d i0 out written j h; rfl
  | cons r rest ih =>
      intro d i0 out written j h
      obtain ⟨k, v⟩ := r
      simp only [update, scalarCb]
      rw [ih _ _ _ _ _ (fun k' hk' => h k' (by simpa using Or.inr hk'))]
      exact foldlSet_not_mem _ _ _ _ (h k (by simp))

theorem update_scalarCb_mem (nowAt jit : Nat → Nat) (outd : List (Nat × List Nat)) :
    ∀ (rows : List (Nat × α)) (d : Dict α) (i0 : Nat) (out : List α) (written : List Nat)
      (k : Nat) (v : α) (j : Nat),
      (k, v) ∈ rows → (rows.map (fun r => r.1)).Nodup →
      j ∈ lookupPos outd k →
      (∀ k', k' ∈ rows.map (fun r => r.1) → k' ≠ k → j ∉ lookupPos outd k') →
      j < out.length →
      (update nowAt jit (scalarCb outd) d rows i0 (out, written)).2.1[j]? = some v := by
  intro rows
  induction rows with
  | nil => intro d i0 out written k v j h; exact absurd h (by simp)
  | cons r rest ih =>
      intro d i0 out written k v j hmem hnd hj hothers hlen
      obtain ⟨k0, v0⟩ := r
      have harr : (setCell (setArr d (getCellIdx d k0) v0) (getCellIdx d k0)
          ⟨k0, installExpiry (nowAt i0) d.min_sec d.max_sec (jit i0)⟩).arr
            (getCellIdx d k0) = v0 := by
        rw [setCell_arr, setArr_arr]
        simp
      rcases List.mem_cons.mp hmem with hhead | htail
      · have hk : k0 = k ∧ v0 = v := by
          have := Prod.mk.injEq k v k0 v0 ▸ hhead
          exact ⟨(Prod.mk.injEq k0 v0 k v).mp hhead.symm |>.1,
            ((Prod.mk.injEq k0 v0 k v).mp hhead.symm).2⟩
        obtain ⟨hk0, hv0⟩ := hk
        subst hk0
        subst hv0
        simp only [update, scalarCb]
        rw [harr]
        have hrest : ∀ k', k' ∈ rest.map (fun r => r.1) → j ∉ lookupPos outd k' := by
          intro k' hk'
          have hne : k' ≠ k0 := by
            intro hc
            subst hc
            exact (List.nodup_cons.mp (by simpa using hnd)).1 hk'
          exact hothers k' (by simpa using Or.inr hk') hne
        rw [update_scalarCb_untouched nowAt jit outd rest _ _ _ _ j hrest]
        exact foldlSet_mem _ _ _ _ hj hlen
      · have hk0ne : k0 ≠ k := by
          intro hc
          subst hc
          have : k0 ∈ rest.map (fun r => r.1) := by
            exact List.mem_map.mpr ⟨(k0, v), htail, rfl⟩
          exact (List.nodup_cons.mp (by simpa using hnd)).1 this
        simp only [update, scalarCb]
        rw [harr]
        have hnotj : j ∉ lookupPos outd k0 := hothers k0 (by simp) hk0ne
        apply ih _ _ _ _ k v j htail (List.nodup_cons.mp (by simpa using hnd)).2 hj
        · intro k' hk' hne
          exact hothers k' (by simpa using Or.inr hk') hne
        · rw [foldlSet_length]
          exact hlen

theorem update_scalarCb_written (nowAt jit : Nat → Nat) (outd : List (Nat × List Nat)) :
    ∀ (rows : List (Nat × α)) (d : Dict α) (i0 : Nat) (out : List α) (written : List Nat)
      (j : Nat), j ∈ (update nowAt jit (scalarCb outd) d rows i0 (out, written)).2.2 →
      j ∈ written ∨ ∃ k, k ∈ rows.map (fun r => r.1) ∧ j ∈ lookupPos outd k := by
  intro rows
  induction rows with
  | nil => intro d i0 out written j h; exact Or.inl h
  | cons r rest ih =>
      intro d i0 out written j h
      obtain ⟨k0, v0⟩ := r
      simp only [update, scalarCb] at h
      rcases ih _ _ _ _ _ h with h | ⟨k, hk, hj⟩
      · rcases List.mem_append.mp h with h | h
        · exact Or.inl h
        · exact Or.inr ⟨k0, by simp, h⟩
      · exact Or.inr ⟨k, by simpa using Or.inr hk, hj⟩

/-! ### `rowsFor` lemmas -/

theorem rowsFor_mem (src : Nat → Option α) (required : List Nat) (k : Nat) (v : α) :
    (k, v) ∈ rowsFor src required ↔ k ∈ required ∧ src k = some v := by
  simp only [rowsFor, List.mem_filterMap]
  constructor
  · rintro ⟨a, ha, hfa⟩
    rcases hsrc : src a with _ | w
    · rw [hsrc] at hfa; simp at hfa
    · rw [hsrc] at hfa
      simp at hfa
      obtain ⟨h1, h2⟩ := hfa
      exact ⟨h1 ▸ ha, by rw [← h1, hsrc, h2]⟩
  · rintro ⟨hk, hv⟩
    exact ⟨k, hk, by rw [hv]; rfl⟩

theorem rowsFor_keys_mem (src : Nat → Option α) (required : List Nat) (k : Nat) :
    k ∈ (rowsFor src required).map (fun r => r.1) ↔
      k ∈ required ∧ ∃ v, src k = some v := by
  constructor
  · intro h
    obtain ⟨⟨k', v⟩, hmem, hk⟩ := List.mem_map.mp h
    simp at hk
    obtain ⟨h1, h2⟩ := (rowsFor_mem src required k' v).mp hmem
    exact ⟨hk ▸ h1, v, hk ▸ h2⟩
  · rintro ⟨hk, v, hv⟩
    exact List.mem_map.mpr ⟨(k, v), (rowsFor_mem src required k v).mpr ⟨hk, hv⟩, rfl⟩

theorem rowsFor_keys_sublist (src : Nat → Option α) :
    ∀ (required : List Nat), ((rowsFor src required).map (fun r => r.1)).Sublist required := by
  intro required
  induction required with
  | nil => simp [rowsFor]
  | cons k rest ih =>
      rcases hsrc : src k with _ | v
      · simp only [rowsFor, List.filterMap_cons, hsrc, Option.map_none']
        exact List.Sublist.cons k ih
      · simp only [rowsFor, List.filterMap_cons, hsrc, Option.map_some', List.map_cons]
        exact List.Sublist.cons₂ k ih

theorem rowsFor_keys_nodup (src : Nat → Option α) (required : List Nat)
    (h : required.Nodup) : ((rowsFor src required).map (fun r => r.1)).Nodup :=
  (rowsFor_keys_sublist src required).nodup h

/-! ### The end-to-end scalar `getItems` characterization -/

theorem getItemsScalar_out (d : Dict α) (now : Nat) (nowAt jit : Nat → Nat)
    (src : Nat → Option α) (ids : List Nat) (out0 : List α)
    (hlen : ids.length ≤ out0.length) (p : Nat) (hp : p < ids.length) :
    (getItemsScalar d now nowAt jit src ids out0).out[p]? =
      some (expectedScalar d now src (ids.get ⟨p, hp⟩)) := by
  have hF1 : (readPassScalar d now ids 0 out0 [] []).1[p]? =
      some (readVal d now (ids.get ⟨p, hp⟩)) := by
    have := readPassScalar_out d now ids 0 out0 [] [] p hp (by omega)
    simpa using this
  have hF2 : ∀ k, lookupPos (readPassScalar d now ids 0 out0 [] []).2.1 k =
      if k ≠ 0 ∧ outdatedCell d now k = true then posOf k ids 0 else [] := by
    intro k
    have := readPassScalar_outd d now ids 0 out0 [] [] k
    simpa [lookupPos_nil] using this
  have hF3 : ∀ k, k ∈ (readPassScalar d now ids 0 out0 [] []).2.1.map (fun e => e.1) ↔
      k ≠ 0 ∧ outdatedCell d now k = true ∧ k ∈ ids := by
    intro k
    have := readPassScalar_keys d now ids 0 out0 [] [] k
    simpa using this
  have hF4 : ((readPassScalar d now ids 0 out0 [] []).2.1.map (fun e => e.1)).Nodup :=
    readPassScalar_keys_nodup d now ids 0 out0 [] [] (by simp)
  have hrlen : (readPassScalar d now ids 0 out0 [] []).1.length = out0.length :=
    readPassScalar_length d now ids 0 out0 [] []
  set k := ids.get (⟨p, hp⟩ : Fin ids.length) with hk
  have hkmem : k ∈ ids := List.get_mem ids p hp
  have hppos : p ∈ posOf k ids 0 := by
    apply (posOf_mem k ids 0 p).mpr
    refine ⟨p, hp, ?_, by omega⟩
    rw [hk]
  have hponly : ∀ k', p ∈ posOf k' ids 0 → k' = k := by
    intro k' h
    obtain ⟨q, hq, hqk, hpq⟩ := (posOf_mem k' ids 0 p).mp h
    have : q = p := by omega
    subst this
    rw [← hqk]
  by_cases hempty : (readPassScalar d now ids 0 out0 [] []).2.1.isEmpty
  · simp only [getItemsScalar, hempty, if_true]
    rw [hF1]
    congr 1
    by_cases h0 : k = 0
    · simp [readVal, expectedScalar, h0]
    · by_cases h1 : outdatedCell d now k = true
      · exfalso
        have : k ∈ (readPassScalar d now ids 0 out0 [] []).2.1.map (fun e => e.1) :=
          (hF3 k).mpr ⟨h0, h1, hkmem⟩
        rw [List.isEmpty_iff] at hempty
        rw [hempty] at this
        simp at this
      · simp [readVal, expectedScalar, h0, h1]
  · simp only [getItemsScalar, hempty, Bool.false_eq_true, if_false]
    have huntouched_of : (¬ (k ≠ 0 ∧ outdatedCell d now k = true ∧ (∃ v, src k = some v))) →
        ∀ k', k' ∈ (rowsFor src
            ((readPassScalar d now ids 0 out0 [] []).2.1.map (fun e => e.1))).map
              (fun r => r.1) →
          p ∉ lookupPos (readPassScalar d now ids 0 out0 [] []).2.1 k' := by
      intro hnot k' hk' hmem
      obtain ⟨hreq, v, hv⟩ := (rowsFor_keys_mem _ _ _).mp hk'
      obtain ⟨hne0, hout, hin⟩ := (hF3 k').mp hreq
      rw [hF2 k', if_pos ⟨hne0, hout⟩] at hmem
      have : k' = k := hponly k' hmem
      subst this
      exact hnot ⟨hne0, hout, v, hv⟩
    by_cases hcase : k ≠ 0 ∧ outdatedCell d now k = true ∧ (∃ v, src k = some v)
    · obtain ⟨h0, h1, v, hv⟩ := hcase
      have hkreq : k ∈ (readPassScalar d now ids 0 out0 [] []).2.1.map (fun e => e.1) :=
        (hF3 k).mpr ⟨h0, h1, hkmem⟩
      have hrow : (k, v) ∈ rowsFor src
          ((readPassScalar d now ids 0 out0 [] []).2.1.map (fun e => e.1)) :=
        (rowsFor_mem _ _ _ _).mpr ⟨hkreq, hv⟩
      have hres := update_scalarCb_mem nowAt jit (readPassScalar d now ids 0 out0 [] []).2.1
        (rowsFor src ((readPassScalar d now ids 0 out0 [] []).2.1.map (fun e => e.1)))
        d 0 (readPassScalar d now ids 0 out0 [] []).1
        (readPassScalar d now ids 0 out0 [] []).2.2 k v p hrow
        (rowsFor_keys_nodup _ _ hF4) ?hjpos ?hothers ?hplen
      case hjpos =>
        rw [hF2 k, if_pos ⟨h0, h1⟩]
        exact hppos
      case hothers =>
        intro k' hk' hne hmemp
        obtain ⟨hreq, w, hw⟩ := (rowsFor_keys_mem _ _ _).mp hk'
        obtain ⟨hne0, hout, hin⟩ := (hF3 k').mp hreq
        rw [hF2 k', if_pos ⟨hne0, hout⟩] at hmemp
        exact hne (hponly k' hmemp)
      case hplen =>
        rw [hrlen]
        omega
      rw [hres]
      congr 1
      simp [expectedScalar, h0, h1, hv]
    · have hres := update_scalarCb_untouched nowAt jit
        (readPassScalar d now ids 0 out0 [] []).2.1
        (rowsFor src ((readPassScalar d now ids 0 out0 [] []).2.1.map (fun e => e.1)))
        d 0 (readPassScalar d now ids 0 out0 [] []).1
        (readPassScalar d now ids 0 out0 [] []).2.2 p (huntouched_of hcase)
      rw [hres, hF1]
      congr 1
      by_cases h0 : k = 0
      · simp [readVal, expectedScalar, h0]
      · by_cases h1 : outdatedCell d now k = true
        · have hsrc : src k = none := by
            rcases hs : src k with _ | w
            · rfl
            · exact absurd ⟨h0, h1, w, hs⟩ hcase
          simp [readVal, expectedScalar, h0, h1, hsrc]
        · simp [readVal, expectedScalar, h0, h1]

theorem getItemsScalar_refreshed (d : Dict α) (now : Nat) (nowAt jit : Nat → Nat)
    (src : Nat → Option α) (ids : List Nat) (out0 : List α) (k : Nat) :
    k ∈ (getItemsScalar d now nowAt jit src ids out0).refreshed ↔
      k ≠ 0 ∧ outdatedCell d now k = true ∧ k ∈ ids := by
  have hF3 : ∀ k', k' ∈ (readPassScalar d now ids 0 out0 [] []).2.1.map (fun e => e.1) ↔
      k' ≠ 0 ∧ outdatedCell d now k' = true ∧ k' ∈ ids := by
    intro k'
    have := readPassScalar_keys d now ids 0 out0 [] [] k'
    simpa using this
  by_cases hempty : (readPassScalar d now ids 0 out0 [] []).2.1.isEmpty
  · simp only [getItemsScalar, hempty, if_true]
    rw [List.isEmpty_iff] at hempty
    constructor
    · intro h; exact absurd h (by simp)
    · intro h
      have := (hF3 k).mpr h
      rw [hempty] at this
      exact absurd this (by simp)
  · simp only [getItemsScalar, hempty, Bool.false_eq_true, if_false]
    exact hF3 k

theorem getItemsScalar_len (d : Dict α) (now : Nat) (nowAt jit : Nat → Nat)
    (src : Nat → Option α) (ids : List Nat) (out0 : List α) :
    (getItemsScalar d now nowAt jit src ids out0).out.length = out0.length := by
  by_cases hempty : (readPassScalar d now ids 0 out0 [] []).2.1.isEmpty
  · simp only [getItemsScalar, hempty, if_true]
    exact readPassScalar_length d now ids 0 out0 [] []
  · simp only [getItemsScalar, hempty, Bool.false_eq_true, if_false]
    rw [update_scalarCb_length]
    exact readPassScalar_length d now ids 0 out0 [] []

theorem getItemsScalar_written_lt (d : Dict α) (now : Nat) (nowAt jit : Nat → Nat)
    (src : Nat → Option α) (ids : List Nat) (out0 : List α) (j : Nat)
    (h : j ∈ (getItemsScalar d now nowAt jit src ids out0).written) : j < ids.length := by
  have hrw : (readPassScalar d now ids 0 out0 [] []).2.2 = List.range' 0 ids.length := by
    have := readPassScalar_written d now ids 0 out0 [] []
    simpa using this
  have hrange : ∀ j', j' ∈ List.range' 0 ids.length → j' < ids.length := by
    intro j' hj'
    have := List.mem_range'_1.mp hj'
    omega
  by_cases hempty : (readPassScalar d now ids 0 out0 [] []).2.1.isEmpty
  · simp only [getItemsScalar, hempty, if_true] at h
    exact hrange j (hrw ▸ h)
  · simp only [getItemsScalar, hempty, Bool.false_eq_true, if_false] at h
    rcases update_scalarCb_written _ _ _ _ _ _ _ _ _ h with h | ⟨k, hk, hj⟩
    · exact hrange j (hrw ▸ h)
    · obtain ⟨hreq, -⟩ := (rowsFor_keys_mem _ _ _).mp hk
      have hkk := (readPassScalar_keys d now ids 0 out0 [] [] k).mp hreq
      simp at hkk
      have := readPassScalar_outd d now ids 0 out0 [] [] k
      rw [this, lookupPos_nil, if_pos ⟨hkk.1, hkk.2.1⟩] at hj
      have := posOf_lt k ids 0 j (by simpa using hj)
      omega

/-! ### String-path lemmas -/

theorem mfind_cons_self (m : List (Nat × String)) (k : Nat) (v : String) :
    mfind ((k, v) :: m) k = some v := by
  simp [mfind]

theorem mfind_cons_ne (m : List (Nat × String)) (k k' : Nat) (v : String) (h : k' ≠ k) :
    mfind ((k', v) :: m) k = mfind m k := by
  have : (k' == k) = false := by simpa using h
  simp [mfind, this]

theorem optimisticPass_allHit (d : Dict String) (now : Nat) :
    ∀ (ids : List Nat), (∀ k ∈ ids, k ≠ 0 → outdatedCell d now k = false) →
      ∀ (acc : List String),
        optimisticPass d now ids acc = (acc ++ ids.map (readVal d now), false) := by
  intro ids
  induction ids with
  | nil => intro h acc; simp [optimisticPass]
  | cons id rest ih =>
      intro h acc
      by_cases h0 : id = 0
      · simp only [optimisticPass, h0, if_true]
        rw [ih (fun k hk => h k (List.mem_cons_of_mem _ hk))]
        simp [readVal, h0]
      · have hhit : outdatedCell d now id = false := h id (List.mem_cons_self _ _) h0
        simp only [optimisticPass, h0, if_false, hhit, Bool.false_eq_true]
        rw [ih (fun k hk => h k (List.mem_cons_of_mem _ hk))]
        simp [readVal, h0, hhit]

theorem optimisticPass_false_allHit (d : Dict String) (now : Nat) :
    ∀ (ids : List Nat) (acc : List String),
      (optimisticPass d now ids acc).2 = false →
      ∀ k ∈ ids, k ≠ 0 → outdatedCell d now k = false := by
  intro ids
  induction ids with
  | nil => intro acc h k hk; exact absurd hk (by simp)
  | cons id rest ih =>
      intro acc h k hk h0
      by_cases hid : id = 0
      · rcases List.mem_cons.mp hk with rfl | hkr
        · exact absurd hid h0
        · simp only [optimisticPass, hid, if_true] at h
          exact ih _ h k hkr h0
      · by_cases hout : outdatedCell d now id
        · simp only [optimisticPass, hid, if_false, hout, if_true] at h
          exact absurd h (by simp)
        · rcases List.mem_cons.mp hk with rfl | hkr
          · simpa using hout
          · simp only [optimisticPass, hid, if_false, hout, Bool.false_eq_true] at h
            exact ih _ h k hkr h0

theorem addCount_keys (m : List (Nat × Nat)) (k : Nat) :
    (addCount m k).map (fun e => e.1) =
      if k ∈ m.map (fun e => e.1) then m.map (fun e => e.1)
      else m.map (fun e => e.1) ++ [k] := by
  induction m with
  | nil => simp [addCount]
  | cons e rest ih =>
      obtain ⟨k0, c⟩ := e
      by_cases h0 : k0 = k
      · subst h0
        simp [addCount]
      · have hne : ¬ k = k0 := fun hc => h0 hc.symm
        by_cases hk : k ∈ rest.map (fun e => e.1)
        · simp [addCount, h0, ih, hk, hne]
        · simp [addCount, h0, ih, hk, hne]

theorem addCount_keys_nodup (m : List (Nat × Nat)) (k : Nat)
    (h : (m.map (fun e => e.1)).Nodup) : ((addCount m k).map (fun e => e.1)).Nodup := by
  rw [addCount_keys]
  by_cases hk : k ∈ m.map (fun e => e.1)
  · simpa [hk] using h
  · simp only [hk, if_false]
    rw [List.nodup_append]
    refine ⟨h, List.nodup_singleton k, ?_⟩
    intro a ha hc
    simp at hc
    subst hc
    exact hk ha

theorem addCount_keys_mem (m : List (Nat × Nat)) (k k' : Nat) :
    k' ∈ (addCount m k).map (fun e => e.1) ↔
      k' ∈ m.map (fun e => e.1) ∨ k' = k := by
  rw [addCount_keys]
  by_cases hk : k ∈ m.map (fun e => e.1)
  · simp only [hk, if_true]
    constructor
    · exact Or.inl
    · rintro (h | h)
      · exact h
      · exact h ▸ hk
  · simp [hk]

theorem pessimisticCollect_mfind (d : Dict String) (now : Nat) :
    ∀ (ids : List Nat) (outd : List (Nat × Nat)) (map0 : List (Nat × String)) (len : Nat)
      (k : Nat),
      mfind (pessimisticCollect d now ids outd map0 len).2.1 k =
        if k ≠ 0 ∧ outdatedCell d now k = false ∧ k ∈ ids then
          some (d.arr (getCellIdx d k))
        else mfind map0 k := by
  intro ids
  induction ids with
  | nil =>
      intro outd map0 len k
      simp [pessimisticCollect]
  | cons id rest ih =>
      intro outd map0 len k
      by_cases h0 : id = 0
      · subst h0
        simp only [pessimisticCollect, if_true]
        rw [ih]
        by_cases hc : k ≠ 0 ∧ outdatedCell d now k = false ∧ k ∈ rest
        · rw [if_pos hc, if_pos ⟨hc.1, hc.2.1, List.mem_cons_of_mem _ hc.2.2⟩]
        · have hc' : ¬ (k ≠ 0 ∧ outdatedCell d now k = false ∧ k ∈ (0 :: rest)) := by
            rintro ⟨h1, h2, h3⟩
            rcases List.mem_cons.mp h3 with h | h
            · exact h1 h
            · exact hc ⟨h1, h2, h⟩
          rw [if_neg hc, if_neg hc']
      · by_cases h1 : outdatedCell d now id
        · simp only [pessimisticCollect, h0, if_false, h1, if_true]
          rw [ih]
          by_cases hc : k ≠ 0 ∧ outdatedCell d now k = false ∧ k ∈ rest
          · rw [if_pos hc, if_pos ⟨hc.1, hc.2.1, List.mem_cons_of_mem _ hc.2.2⟩]
          · have hc' : ¬ (k ≠ 0 ∧ outdatedCell d now k = false ∧ k ∈ (id :: rest)) := by
              rintro ⟨ha, hb, hm⟩
              rcases List.mem_cons.mp hm with h | h
              · subst h
                rw [h1] at hb
                exact absurd hb (by simp)
              · exact hc ⟨ha, hb, h⟩
            rw [if_neg hc, if_neg hc']
        · simp only [pessimisticCollect, h0, if_false, h1, Bool.false_eq_true, if_false]
          rw [ih]
          by_cases hc : k ≠ 0 ∧ outdatedCell d now k = false ∧ k ∈ rest
          · rw [if_pos hc, if_pos ⟨hc.1, hc.2.1, List.mem_cons_of_mem _ hc.2.2⟩]
          · by_cases hkid : k = id
            · subst hkid
              rw [if_neg hc,
                if_pos (⟨h0, by simpa using h1, List.mem_cons_self _ _⟩ :
                  k ≠ 0 ∧ outdatedCell d now k = false ∧ k ∈ (k :: rest)),
                mfind_cons_self]
            · have hc' : ¬ (k ≠ 0 ∧ outdatedCell d now k = false ∧ k ∈ (id :: rest)) := by
                rintro ⟨ha, hb, hm⟩
                rcases List.mem_cons.mp hm with h | h
                · exact hkid h
                · exact hc ⟨ha, hb, h⟩
              rw [if_neg hc, if_neg hc', mfind_cons_ne _ _ _ _ (fun hcc => hkid hcc.symm)]

theorem pessimisticCollect_keys (d : Dict String) (now : Nat) :
    ∀ (ids : List Nat) (outd : List (Nat × Nat)) (map0 : List (Nat × String)) (len : Nat)
      (k : Nat),
      k ∈ (pessimisticCollect d now ids outd map0 len).1.map (fun e => e.1) ↔
        k ∈ outd.map (fun e => e.1) ∨
          (k ≠ 0 ∧ outdatedCell d now k = true ∧ k ∈ ids) := by
  intro ids
  induction ids with
  | nil =>
      intro outd map0 len k
      simp [pessimisticCollect]
  | cons id rest ih =>
      intro outd map0 len k
      by_cases h0 : id = 0
      · subst h0
        simp only [pessimisticCollect, if_true]
        rw [ih]
        constructor
        · rintro (h | ⟨ha, hb, hc⟩)
          · exact Or.inl h
          · exact Or.inr ⟨ha, hb, List.mem_cons_of_mem _ hc⟩
        · rintro (h | ⟨ha, hb, hc⟩)
          · exact Or.inl h
          · rcases List.mem_cons.mp hc with h | h
            · exact absurd h ha
            · exact Or.inr ⟨ha, hb, h⟩
      · by_cases h1 : outdatedCell d now id
        · simp only [pessimisticCollect, h0, if_false, h1, if_true]
          rw [ih]
          rw [addCount_keys_mem]
          constructor
          · rintro ((h | h) | ⟨ha, hb, hc⟩)
            · exact Or.inl h
            · exact Or.inr ⟨h ▸ h0, h ▸ h1, h ▸ List.mem_cons_self _ _⟩
            · exact Or.inr ⟨ha, hb, List.mem_cons_of_mem _ hc⟩
          · rintro (h | ⟨ha, hb, hc⟩)
            · exact Or.inl (Or.inl h)
            · rcases List.mem_cons.mp hc with h | h
              · exact Or.inl (Or.inr h)
              · exact Or.inr ⟨ha, hb, h⟩
        · simp only [pessimisticCollect, h0, if_false, h1, Bool.false_eq_true, if_false]
          rw [ih]
          constructor
          · rintro (h | ⟨ha, hb, hc⟩)
            · exact Or.inl h
            · exact Or.inr ⟨ha, hb, List.mem_cons_of_mem _ hc⟩
          · rintro (h | ⟨ha, hb, hc⟩)
            · exact Or.inl h
            · rcases List.mem_cons.mp hc with h | h
              · exact absurd (h ▸ hb) (by simpa using h1)
              · exact Or.inr ⟨ha, hb, h⟩

theorem pessimisticCollect_keys_nodup (d : Dict String) (now : Nat) :
    ∀ (ids : List Nat) (outd : List (Nat × Nat)) (map0 : List (Nat × String)) (len : Nat),
      (outd.map (fun e => e.1)).Nodup →
      ((pessimisticCollect d now ids outd map0 len).1.map (fun e => e.1)).Nodup := by
  intro ids
  induction ids with
  | nil => intro outd map0 len h; exact h
  | cons id rest ih =>
      intro outd map0 len h
      by_cases h0 : id = 0
      · simp only [pessimisticCollect, h0, if_true]
        exact ih _ _ _ h
      · by_cases h1 : outdatedCell d now id
        · simp only [pessimisticCollect, h0, if_false, h1, if_true]
          exact ih _ _ _ (addCount_keys_nodup _ _ h)
        · simp only [pessimisticCollect, h0, if_false, h1, Bool.false_eq_true, if_false]
          exact ih _ _ _ h

theorem update_stringCb_untouched (nowAt jit : Nat → Nat) :
    ∀ (rows : List (Nat × String)) (d : Dict String) (i0 : Nat)
      (map0 : List (Nat × String)) (len : Nat) (k : Nat),
      k ∉ rows.map (fun r => r.1) →
      mfind (update nowAt jit stringCb d rows i0 (map0, len)).2.1 k = mfind map0 k := by
  intro rows
  induction rows with
  | nil => intro d i0 map0 len k h; rfl
  | cons r rest ih =>
      intro d i0 map0 len k h
      obtain ⟨k0, v0⟩ := r
      have hk0 : k ≠ k0 := by
        intro hc
        exact h (by simp [hc])
      simp only [update, stringCb]
      rw [ih _ _ _ _ _ (fun hc => h (by simpa using Or.inr hc))]
      exact mfind_cons_ne _ _ _ _ (fun hc => hk0 hc.symm)

theorem update_stringCb_mem (nowAt jit : Nat → Nat) :
    ∀ (rows : List (Nat × String)) (d : Dict String) (i0 : Nat)
      (map0 : List (Nat × String)) (len : Nat) (k : Nat) (v : String),
      (k, v) ∈ rows → (rows.map (fun r => r.1)).Nodup →
      mfind (update nowAt jit stringCb d rows i0 (map0, len)).2.1 k = some v := by
  intro rows
  induction rows with
  | nil => intro d i0 map0 len k v h; exact absurd h (by simp)
  | cons r rest ih =>
      intro d i0 map0 len k v hmem hnd
      obtain ⟨k0, v0⟩ := r
      have harr : (setCell (setArr d (getCellIdx d k0) v0) (getCellIdx d k0)
          ⟨k0, installExpiry (nowAt i0) d.min_sec d.max_sec (jit i0)⟩).arr
            (getCellIdx d k0) = v0 := by
        rw [setCell_arr, setArr_arr]
        simp
      rcases List.mem_cons.mp hmem with hhead | htail
      · have hk0 : k0 = k := ((Prod.mk.injEq k0 v0 k v).mp hhead.symm).1
        have hv0 : v0 = v := ((Prod.mk.injEq k0 v0 k v).mp hhead.symm).2
        subst hk0
        subst hv0
        simp only [update, stringCb]
        rw [harr]
        have hnotin : k0 ∉ rest.map (fun r => r.1) :=
          (List.nodup_cons.mp (by simpa using hnd)).1
        rw [update_stringCb_untouched nowAt jit rest _ _ _ _ _ hnotin]
        exact mfind_cons_self _ _ _
      · simp only [update, stringCb]
        rw [harr]
        exact ih _ _ _ _ _ _ htail (List.nodup_cons.mp (by simpa using hnd)).2

theorem stringEmit_getElem (d : Dict String) (map : List (Nat × String)) (ids : List Nat)
    (p : Nat) (hp : p < ids.length) :
    (stringEmit d map ids)[p]? =
      some (match mfind map (ids.get ⟨p, hp⟩) with
            | some s => s
            | none => d.nullVal) := by
  simp only [stringEmit, List.getElem?_map]
  rw [List.getElem?_eq_getElem hp]
  rfl

/-! ### The end-to-end string `getItems` characterization -/

theorem getItemsString_out (d : Dict String) (now : Nat) (nowAt jit : Nat → Nat)
    (src : Nat → Option String) (ids : List Nat) (p : Nat) (hp : p < ids.length) :
    (getItemsString d now nowAt jit src ids).out[p]? =
      some (expectedString d now src (ids.get ⟨p, hp⟩)) := by
  set k := ids.get (⟨p, hp⟩ : Fin ids.length) with hk
  have hkmem : k ∈ ids := List.get_mem ids p hp
  have hkp : ids[p] = k := by rw [hk, List.get_eq_getElem]
  by_cases hflag : (optimisticPass d now ids []).2 = false
  · have hallhit := optimisticPass_false_allHit d now ids [] hflag
    have hopt := optimisticPass_allHit d now ids hallhit []
    simp only [getItemsString, hflag, if_true]
    rw [hopt]
    simp only [List.nil_append, List.getElem?_map]
    rw [List.getElem?_eq_getElem hp]
    simp only [Option.map_some']
    rw [hkp]
    congr 1
    by_cases h0 : k = 0
    · simp [readVal, expectedString, h0]
    · have hhit : outdatedCell d now k = false := hallhit k hkmem h0
      simp [readVal, expectedString, h0, hhit]
  · simp only [getItemsString, hflag, Bool.true_eq_false, if_false]
    have hm0 : ∀ k', mfind (pessimisticCollect d now ids [] [] 0).2.1 k' =
        if k' ≠ 0 ∧ outdatedCell d now k' = false ∧ k' ∈ ids then
          some (d.arr (getCellIdx d k'))
        else none := by
      intro k'
      rw [pessimisticCollect_mfind]
      rfl
    have hkeys : ∀ k', k' ∈ (pessimisticCollect d now ids [] [] 0).1.map (fun e => e.1) ↔
        k' ≠ 0 ∧ outdatedCell d now k' = true ∧ k' ∈ ids := by
      intro k'
      have := pessimisticCollect_keys d now ids [] [] 0 k'
      simpa using this
    have hnd : ((pessimisticCollect d now ids [] [] 0).1.map (fun e => e.1)).Nodup :=
      pessimisticCollect_keys_nodup d now ids [] [] 0 (by simp)
    by_cases hempty : (pessimisticCollect d now ids [] [] 0).1.isEmpty
    · simp only [hempty, if_true]
      rw [stringEmit_getElem d _ ids p hp]
      congr 1
      rw [List.isEmpty_iff] at hempty
      rw [hm0, ← hk]
      by_cases h0 : k = 0
      · simp [expectedString, h0]
      · by_cases h1 : outdatedCell d now k = true
        · exfalso
          have := (hkeys k).mpr ⟨h0, h1, hkmem⟩
          rw [hempty] at this
          simp at this
        · rw [if_pos ⟨h0, by simpa using h1, hkmem⟩]
          simp [expectedString, h0, h1]
    · simp only [hempty, Bool.false_eq_true, if_false]
      rw [stringEmit_getElem d _ ids p hp]
      congr 1
      rw [← hk]
      have hrows_nd : ((rowsFor src
          ((pessimisticCollect d now ids [] [] 0).1.map (fun e => e.1))).map
            (fun r => r.1)).Nodup :=
        rowsFor_keys_nodup _ _ hnd
      by_cases hcase : k ≠ 0 ∧ outdatedCell d now k = true ∧ (∃ v, src k = some v)
      · obtain ⟨h0, h1, v, hv⟩ := hcase
        have hrow : (k, v) ∈ rowsFor src
            ((pessimisticCollect d now ids [] [] 0).1.map (fun e => e.1)) :=
          (rowsFor_mem _ _ _ _).mpr ⟨(hkeys k).mpr ⟨h0, h1, hkmem⟩, hv⟩
        rw [update_stringCb_mem nowAt jit _ _ _ _ _ _ _ hrow hrows_nd]
        simp [expectedString, h0, h1, hv]
      · have hnotin : k ∉ (rowsFor src
            ((pessimisticCollect d now ids [] [] 0).1.map (fun e => e.1))).map
              (fun r => r.1) := by
          intro hc
          obtain ⟨hreq, v, hv⟩ := (rowsFor_keys_mem _ _ _).mp hc
          obtain ⟨ha, hb, -⟩ := (hkeys k).mp hreq
          exact hcase ⟨ha, hb, v, hv⟩
        rw [update_stringCb_untouched nowAt jit _ _ _ _ _ _ hnotin, hm0]
        by_cases h0 : k = 0
        · simp [expectedString, h0]
        · by_cases h1 : outdatedCell d now k = true
          · have hsrc : src k = none := by
              rcases hs : src k with _ | w
              · rfl
              · exact absurd ⟨h0, h1, w, hs⟩ hcase
            rw [if_neg (by rintro ⟨-, hb, -⟩; rw [h1] at hb; exact absurd hb (by simp))]
            simp [expectedString, h0, h1, hsrc]
          · rw [if_pos ⟨h0, by simpa using h1, hkmem⟩]
            simp [expectedString, h0, h1]

theorem getItemsString_refreshed (d : Dict String) (now : Nat) (nowAt jit : Nat → Nat)
    (src : Nat → Option String) (ids : List Nat) (k : Nat) :
    k ∈ (getItemsString d now nowAt jit src ids).refreshed ↔
      k ≠ 0 ∧ outdatedCell d now k = true ∧ k ∈ ids := by
  have hkeys : ∀ k', k' ∈ (pessimisticCollect d now ids [] [] 0).1.map (fun e => e.1) ↔
      k' ≠ 0 ∧ outdatedCell d now k' = true ∧ k' ∈ ids := by
    intro k'
    have := pessimisticCollect_keys d now ids [] [] 0 k'
    simpa using this
  by_cases hflag : (optimisticPass d now ids []).2 = false
  · have hallhit := optimisticPass_false_allHit d now ids [] hflag
    simp only [getItemsString, hflag, if_true]
    constructor
    · intro h; exact absurd h (by simp)
    · rintro ⟨h0, h1, h2⟩
      rw [hallhit k h2 h0] at h1
      exact absurd h1 (by simp)
  · simp only [getItemsString, hflag, Bool.true_eq_false, if_false]
    by_cases hempty : (pessimisticCollect d now ids [] [] 0).1.isEmpty
    · simp only [hempty, if_true]
      rw [List.isEmpty_iff] at hempty
      constructor
      · intro h; exact absurd h (by simp)
      · intro h
        have := (hkeys k).mpr h
        rw [hempty] at this
        exact absurd this (by simp)
    · simp only [hempty, Bool.false_eq_true, if_false]
      exact hkeys k

/-! ### Refresh expiry and single-row refresh -/

theorem installExpiry_bounds (now min_sec max_sec r : Nat) (h : min_sec ≤ max_sec) :
    now + min_sec ≤ installExpiry now min_sec max_sec r ∧
      installExpiry now min_sec max_sec r ≤ now + max_sec := by
  have hmod : r % (max_sec - min_sec + 1) ≤ max_sec - min_sec := by
    have := Nat.mod_lt r (show 0 < max_sec - min_sec + 1 by omega)
    omega
  unfold installExpiry
  omega

theorem update_cells_expiry (nowAt jit : Nat → Nat) (onUpd : σ → Nat → Nat → Dict α → σ) :
    ∀ (rows : List (Nat × α)) (d : Dict α) (i0 : Nat) (s0 : σ) (slot : Nat),
      (update nowAt jit onUpd d rows i0 s0).1.cells slot = d.cells slot ∨
      ∃ i k', (update nowAt jit onUpd d rows i0 s0).1.cells slot =
        ⟨k', installExpiry (nowAt i) d.min_sec d.max_sec (jit i)⟩ := by
  intro rows
  induction rows with
  | nil => intro d i0 s0 slot; exact Or.inl rfl
  | cons r rest ih =>
      intro d i0 s0 slot
      obtain ⟨k, v⟩ := r
      simp only [update]
      rcases ih (setCell (setArr d (getCellIdx d k) v) (getCellIdx d k)
          ⟨k, installExpiry (nowAt i0) d.min_sec d.max_sec (jit i0)⟩) (i0 + 1) _ slot with
        h | ⟨i, k', h⟩
      · rw [h]
        rw [setCell_cells, setArr_cells]
        by_cases hs : slot = getCellIdx d k
        · exact Or.inr ⟨i0, k, by simp [hs]⟩
        · simp only [hs, if_false]
          exact Or.inl trivial
      · rw [h]
        exact Or.inr ⟨i, k', by simp [setArr, setCell]⟩

theorem update_single (nowAt jit : Nat → Nat) (onUpd : σ → Nat → Nat → Dict α → σ)
    (d : Dict α) (k : Nat) (v : α) (i0 : Nat) (s0 : σ) :
    (update nowAt jit onUpd d [(k, v)] i0 s0).1 =
      setCell (setArr d (getCellIdx d k) v) (getCellIdx d k)
        ⟨k, installExpiry (nowAt i0) d.min_sec d.max_sec (jit i0)⟩ := rfl

/-! ### Pessimistic emission agrees with the optimistic pass on all-hit
states -/

theorem stringEmit_allHit (d : Dict String) (now : Nat) (ids : List Nat)
    (hallhit : ∀ k ∈ ids, k ≠ 0 → outdatedCell d now k = false) :
    stringEmit d (pessimisticCollect d now ids [] [] 0).2.1 ids =
      ids.map (readVal d now) := by
  apply List.map_congr_left
  intro k hkmem
  rw [pessimisticCollect_mfind]
  by_cases h0 : k = 0
  · have : ¬ (k ≠ 0 ∧ outdatedCell d now k = false ∧ k ∈ ids) := by
      rintro ⟨h, -, -⟩; exact h h0
    rw [if_neg this]
    simp [mfind, readVal, h0]
  · have hhit := hallhit k hkmem h0
    rw [if_pos ⟨h0, hhit, hkmem⟩]
    simp [readVal, h0, hhit]

/-! ## Claim theorems -/

/-- C1: for `get_string` over any key batch on an all-hit cache state
(no non-zero key of the batch is stale or missing), the optimistic read
pass completes without aborting and emits exactly the bytes that the
pessimistic pass (outdated/found maps, then emission in original request
order) would produce on the same state: the two code paths yield the
same output byte column. -/
theorem spec_C1_two_phase_equivalence (d : Dict String) (now : Nat) (ids : List Nat)
    (hallhit : ∀ k ∈ ids, k ≠ 0 → outdatedCell d now k = false) :
    (optimisticPass d now ids []).2 = false ∧
    (optimisticPass d now ids []).1 =
      stringEmit d (pessimisticCollect d now ids [] [] 0).2.1 ids ∧
    ∀ (nowAt jit : Nat → Nat) (src : Nat → Option String),
      (getItemsString d now nowAt jit src ids).out = (optimisticPass d now ids []).1 := by
  have hopt := optimisticPass_allHit d now ids hallhit []
  refine ⟨?_, ?_, ?_⟩
  · rw [hopt]
  · rw [hopt, stringEmit_allHit d now ids hallhit]
    simp
  · intro nowAt jit src
    simp [getItemsString, hopt]

/-- Witness for C1 at a concrete all-hit state and batch. -/
theorem spec_C1_two_phase_equivalence_witness :
    (∀ k ∈ [1, 0, 1], k ≠ 0 → outdatedCell exStrDict 100 k = false) ∧
    ((optimisticPass exStrDict 100 [1, 0, 1] []).2 = false ∧
      (optimisticPass exStrDict 100 [1, 0, 1] []).1 =
        stringEmit exStrDict (pessimisticCollect exStrDict 100 [1, 0, 1] [] [] 0).2.1
          [1, 0, 1] ∧
      ∀ (nowAt jit : Nat → Nat) (src : Nat → Option String),
        (getItemsString exStrDict 100 nowAt jit src [1, 0, 1]).out =
          (optimisticPass exStrDict 100 [1, 0, 1] []).1) :=
  ⟨by decide, spec_C1_two_phase_equivalence exStrDict 100 [1, 0, 1] (by decide)⟩

/-- C2: under the construction precondition `min_sec ≤ max_sec`, every
cell slot changed by a refresh carries an expiry within
`[t + min_sec, t + max_sec]` of the clock instant `t` at which its row
was written. -/
theorem spec_C2_ttl_bounds {σ : Type} (d : Dict α) (nowAt jit : Nat → Nat)
    (onUpd : σ → Nat → Nat → Dict α → σ) (rows : List (Nat × α)) (i0 : Nat) (s0 : σ)
    (h : d.min_sec ≤ d.max_sec) (slot : Nat)
    (hch : (update nowAt jit onUpd d rows i0 s0).1.cells slot ≠ d.cells slot) :
    ∃ i, nowAt i + d.min_sec ≤
        ((update nowAt jit onUpd d rows i0 s0).1.cells slot).expires_at ∧
      ((update nowAt jit onUpd d rows i0 s0).1.cells slot).expires_at ≤
        nowAt i + d.max_sec := by
  rcases update_cells_expiry nowAt jit onUpd rows d i0 s0 slot with hsame | ⟨i, k', hw⟩
  · exact absurd hsame hch
  · refine ⟨i, ?_, ?_⟩
    · rw [hw]
      exact (installExpiry_bounds (nowAt i) d.min_sec d.max_sec (jit i) h).1
    · rw [hw]
      exact (installExpiry_bounds (nowAt i) d.min_sec d.max_sec (jit i) h).2

/-- Witness for C2: a refresh of key 1 into the empty example cache. -/
theorem spec_C2_ttl_bounds_witness :
    (exNatDict.min_sec ≤ exNatDict.max_sec ∧
      (update (fun _ => 100) (fun _ => 0) (fun (s : Unit) _ _ (_ : Dict Nat) => s)
        exNatDict [(1, 7)] 0 ()).1.cells 1 ≠ exNatDict.cells 1) ∧
    ∃ i, (fun _ => 100 : Nat → Nat) i + exNatDict.min_sec ≤
        ((update (fun _ => 100) (fun _ => 0) (fun (s : Unit) _ _ (_ : Dict Nat) => s)
          exNatDict [(1, 7)] 0 ()).1.cells 1).expires_at ∧
      ((update (fun _ => 100) (fun _ => 0) (fun (s : Unit) _ _ (_ : Dict Nat) => s)
        exNatDict [(1, 7)] 0 ()).1.cells 1).expires_at ≤
        (fun _ => 100 : Nat → Nat) i + exNatDict.max_sec :=
  ⟨⟨by decide, by decide⟩,
    spec_C2_ttl_bounds exNatDict (fun _ => 100) (fun _ => 0)
      (fun (s : Unit) _ _ (_ : Dict Nat) => s) [(1, 7)] 0 () (by decide) 1 (by decide)⟩

/-- C6 (code bug): `setAttributeValue` for a non-empty string copies
`size + 1` bytes, so the installed bytes depend on the byte at
`data()[size]` — two source buffers that agree on all `size` string
bytes yield different installed buffers.  The claim's required copy
(`specCopiedBytes`, exactly `size` bytes) does not.  The parts of the
claim the code does satisfy — stored length `size`, correct leading
bytes — hold as well. -/
theorem spec_C6_string_copy_reads_past_end :
    (∀ i, i < 1 → exBufA i = exBufB i) ∧
    setAttributeValueString exBufA 1 ≠ setAttributeValueString exBufB 1 ∧
    (copiedBytes exBufA 1).length = 1 + 1 ∧
    (setAttributeValueString exBufA 1).size = 1 ∧
    (setAttributeValueString exBufA 1).bytes.take 1 = [exBufA 0] ∧
    specCopiedBytes exBufA 1 = specCopiedBytes exBufB 1 := by
  refine ⟨?_, ?_, ?_, ?_, ?_, ?_⟩ <;> decide

/-- C7 (corrected): on the domain `1 ≤ n ≤ 2 ^ 63` the constructed
capacity is the least power of two that is at least `n` (hence at least
1); the original claim's "minimum 1 for requested size 0" fails — see
the counterexample. -/
theorem spec_C7_size_rounding {n : Nat} (h1 : 1 ≤ n) (h2 : n ≤ 2 ^ 63) :
    1 ≤ round_up_to_power_of_two n ∧
    n ≤ round_up_to_power_of_two n ∧
    (∃ k, round_up_to_power_of_two n = 2 ^ k) ∧
    (∀ m k, m = 2 ^ k → n ≤ m → round_up_to_power_of_two n ≤ m) := by
  rw [round_up_eq h1 h2]
  refine ⟨Nat.one_le_two_pow, ?_, ⟨Nat.size (n - 1), rfl⟩, ?_⟩
  · have := Nat.lt_size_self (n - 1)
    omega
  · rintro m k rfl hnm
    apply Nat.pow_le_pow_right (by norm_num)
    rw [Nat.size_le]
    omega

/-- Witness for C7's amended statement at `n = 5` (capacity 8). -/
theorem spec_C7_size_rounding_witness :
    1 ≤ round_up_to_power_of_two 5 ∧
    5 ≤ round_up_to_power_of_two 5 ∧
    (∃ k, round_up_to_power_of_two 5 = 2 ^ k) ∧
    (∀ m k, m = 2 ^ k → 5 ≤ m → round_up_to_power_of_two 5 ≤ m) :=
  spec_C7_size_rounding (by decide) (by norm_num)

/-- Counterexample for C7 as stated: a requested size of 0 yields a
capacity of 0 (the 64-bit decrement wraps around), not a capacity of at
least 1. -/
theorem spec_C7_size_rounding_counterexample :
    round_up_to_power_of_two 0 = 0 ∧ ¬ 1 ≤ round_up_to_power_of_two 0 := by
  decide

/-- C3: if distinct non-zero keys `k1`, `k2` share a slot and `k1` is
resident there, then after a refresh installs `k2` at that slot a read
of `k1` classifies it as a miss, writes the null value for it, records
it in the outdated map, and the batched getter passes `[k1]` to a new
refresh. -/
theorem spec_C3_collision_eviction {σ : Type} (d : Dict α) (nowAt jit : Nat → Nat)
    (onUpd : σ → Nat → Nat → Dict α → σ) (i0 : Nat) (s0 : σ) (k1 k2 : Nat) (v : α)
    (h1 : k1 ≠ 0) (h2 : k2 ≠ 0) (hne : k1 ≠ k2)
    (hslot : getCellIdx d k1 = getCellIdx d k2)
    (hres : (d.cells (getCellIdx d k1)).id = k1)
    (now' : Nat) (nowAt' jit' : Nat → Nat) (src' : Nat → Option α) (x : α) :
    outdatedCell (update nowAt jit onUpd d [(k2, v)] i0 s0).1 now' k1 = true ∧
    readPassScalar (update nowAt jit onUpd d [(k2, v)] i0 s0).1 now' [k1] 0 [x] [] [] =
      ([d.nullVal], [(k1, [0])], [0]) ∧
    (getItemsScalar (update nowAt jit onUpd d [(k2, v)] i0 s0).1 now' nowAt' jit' src'
      [k1] [x]).refreshed = [k1] := by
  rw [update_single]
  have hcell : (setCell (setArr d (getCellIdx d k2) v) (getCellIdx d k2)
      ⟨k2, installExpiry (nowAt i0) d.min_sec d.max_sec (jit i0)⟩).cells
        (getCellIdx (setCell (setArr d (getCellIdx d k2) v) (getCellIdx d k2)
          ⟨k2, installExpiry (nowAt i0) d.min_sec d.max_sec (jit i0)⟩) k1) =
      ⟨k2, installExpiry (nowAt i0) d.min_sec d.max_sec (jit i0)⟩ := by
    show (setCell (setArr d (getCellIdx d k2) v) (getCellIdx d k2)
      ⟨k2, installExpiry (nowAt i0) d.min_sec d.max_sec (jit i0)⟩).cells
        (getCellIdx d k1) = _
    rw [hslot, setCell_cells]
    simp
  have hbne : (k2 != k1) = true := bne_iff_ne.mpr (Ne.symm hne)
  have houtd : outdatedCell (setCell (setArr d (getCellIdx d k2) v) (getCellIdx d k2)
      ⟨k2, installExpiry (nowAt i0) d.min_sec d.max_sec (jit i0)⟩) now' k1 = true := by
    simp only [outdatedCell]
    rw [hcell]
    simp [hbne]
  have hread : readPassScalar (setCell (setArr d (getCellIdx d k2) v) (getCellIdx d k2)
      ⟨k2, installExpiry (nowAt i0) d.min_sec d.max_sec (jit i0)⟩) now' [k1] 0 [x] [] [] =
      ([d.nullVal], [(k1, [0])], [0]) := by
    simp [readPassScalar, h1, houtd, addPos, setCell_nullVal, setArr_nullVal]
  refine ⟨houtd, hread, ?_⟩
  simp only [getItemsScalar, hread]
  simp

/-- Witness for C3: keys 1 and 5 collide at slot 1 of the concrete
state; key 1 is resident, key 5 is refreshed in, and a read of key 1
misses und re-requests it. -/
theorem spec_C3_collision_eviction_witness :
    ((1 : Nat) ≠ 0 ∧ (5 : Nat) ≠ 0 ∧ (1 : Nat) ≠ 5 ∧
      getCellIdx exNatDictHit 1 = getCellIdx exNatDictHit 5 ∧
      (exNatDictHit.cells (getCellIdx exNatDictHit 1)).id = 1) ∧
    (outdatedCell (update (fun _ => 100) (fun _ => 0)
        (fun (s : Unit) _ _ (_ : Dict Nat) => s) exNatDictHit [(5, 9)] 0 ()).1 300 1 =
          true ∧
      readPassScalar (update (fun _ => 100) (fun _ => 0)
        (fun (s : Unit) _ _ (_ : Dict Nat) => s) exNatDictHit [(5, 9)] 0 ()).1 300
          [1] 0 [0] [] [] = ([exNatDictHit.nullVal], [(1, [0])], [0]) ∧
      (getItemsScalar (update (fun _ => 100) (fun _ => 0)
        (fun (s : Unit) _ _ (_ : Dict Nat) => s) exNatDictHit [(5, 9)] 0 ()).1 300
          (fun _ => 300) (fun _ => 0) (fun _ => none) [1] [0]).refreshed = [1]) :=
  ⟨⟨by decide, by decide, by decide, by decide, by decide⟩,
    spec_C3_collision_eviction exNatDictHit (fun _ => 100) (fun _ => 0)
      (fun (s : Unit) _ _ (_ : Dict Nat) => s) 0 () 1 5 9 (by decide) (by decide)
      (by decide) (by decide) (by decide) 300 (fun _ => 300) (fun _ => 0)
      (fun _ => none) 0⟩

/-- C4: for an attribute present in the schema, a typed batched getter
succeeds iff the attribute's declared kind equals the getter's type;
on a mismatch it returns `TypeMismatch` identically for every cache
state, clock, and source — the check precedes any lock or cache
access. -/
theorem spec_C4_type_safety (byName : List (String × Nat)) (types : List AttributeType)
    (nm : String) (idx : Nat) (tdecl T : AttributeType)
    (h1 : getAttributeIndex byName nm = Except.ok idx) (h2 : types[idx]? = some tdecl)
    (atts : Nat → Dict α) (now : Nat) (nowAt jit : Nat → Nat) (src : Nat → Option α)
    (ids : List Nat) (out0 : List α) :
    ((∃ r, getMultiple byName types T nm atts now nowAt jit src ids out0 =
      Except.ok r) ↔ tdecl = T) ∧
    (tdecl ≠ T →
      getMultiple byName types T nm atts now nowAt jit src ids out0 =
        Except.error DictError.typeMismatch) := by
  have hgetD : types.getD idx AttributeType.uint8 = tdecl := by
    rw [List.getD_eq_getElem?_getD, h2]
    rfl
  have hcheck : getterCheck byName types T nm =
      if tdecl = T then Except.ok idx else Except.error DictError.typeMismatch := by
    simp only [getterCheck, h1, hgetD]
    by_cases ht : tdecl = T
    · simp [ht]
    · simp [ht]
  constructor
  · constructor
    · rintro ⟨r, hr⟩
      by_contra hne
      simp only [getMultiple, hcheck, if_neg hne] at hr
      exact Except.noConfusion hr
    · intro ht
      refine ⟨getItemsScalar (atts idx) now nowAt jit src ids out0, ?_⟩
      simp only [getMultiple, hcheck, if_pos ht]
  · intro hne
    simp only [getMultiple, hcheck, if_neg hne]

/-- Witness for C4: a schema with one `uint32` attribute `x`; the
`uint64` getter must reject it with `TypeMismatch`. -/
theorem spec_C4_type_safety_witness :
    (getAttributeIndex [("x", 0)] "x" = Except.ok 0 ∧
      [AttributeType.uint32][0]? = some AttributeType.uint32) ∧
    ((∃ r, getMultiple [("x", 0)] [AttributeType.uint32] AttributeType.uint64 "x"
        (fun _ => exNatDict) 100 (fun _ => 100) (fun _ => 0) (fun _ => none) [] [] =
      Except.ok r) ↔ AttributeType.uint32 = AttributeType.uint64) ∧
    (AttributeType.uint32 ≠ AttributeType.uint64 →
      getMultiple [("x", 0)] [AttributeType.uint32] AttributeType.uint64 "x"
        (fun _ => exNatDict) 100 (fun _ => 100) (fun _ => 0) (fun _ => none) [] [] =
          Except.error DictError.typeMismatch) :=
  ⟨⟨rfl, rfl⟩,
    spec_C4_type_safety [("x", 0)] [AttributeType.uint32] "x" 0 AttributeType.uint32
      AttributeType.uint64 rfl rfl (fun _ => exNatDict) 100 (fun _ => 100) (fun _ => 0)
      (fun _ => none) [] []⟩

/-- C5: at every batch position holding key 0, the scalar getter and the
string getter emit the attribute's configured null value — for every
cache state, so the output cannot depend on the cell array or any
column slot — and key 0 is never among the ids passed to a refresh. -/
theorem spec_C5_null_on_zero (d : Dict α) (ds : Dict String) (now nows : Nat)
    (nowAt jit nowAts jits : Nat → Nat) (src : Nat → Option α)
    (srcs : Nat → Option String) (ids : List Nat) (out0 : List α)
    (hlen : ids.length ≤ out0.length) (p : Nat) (hp : p < ids.length)
    (hz : ids.get ⟨p, hp⟩ = 0) :
    (getItemsScalar d now nowAt jit src ids out0).out[p]? = some d.nullVal ∧
    0 ∉ (getItemsScalar d now nowAt jit src ids out0).refreshed ∧
    (getItemsString ds nows nowAts jits srcs ids).out[p]? = some ds.nullVal ∧
    0 ∉ (getItemsString ds nows nowAts jits srcs ids).refreshed := by
  refine ⟨?_, ?_, ?_, ?_⟩
  · rw [getItemsScalar_out d now nowAt jit src ids out0 hlen p hp, hz]
    simp [expectedScalar]
  · intro h
    exact ((getItemsScalar_refreshed d now nowAt jit src ids out0 0).mp h).1 rfl
  · rw [getItemsString_out ds nows nowAts jits srcs ids p hp, hz]
    simp [expectedString]
  · intro h
    exact ((getItemsString_refreshed ds nows nowAts jits srcs ids 0).mp h).1 rfl

/-- Witness for C5 at the batch `[0]`. -/
theorem spec_C5_null_on_zero_witness :
    (([0] : List Nat).length ≤ ([5] : List Nat).length ∧
      ([0] : List Nat).get ⟨0, by decide⟩ = 0) ∧
    ((getItemsScalar exNatDict 100 (fun _ => 100) (fun _ => 0) (fun _ => none)
        [0] [5]).out[0]? = some exNatDict.nullVal ∧
      0 ∉ (getItemsScalar exNatDict 100 (fun _ => 100) (fun _ => 0) (fun _ => none)
        [0] [5]).refreshed ∧
      (getItemsString exStrDict 100 (fun _ => 100) (fun _ => 0) (fun _ => none)
        [0]).out[0]? = some exStrDict.nullVal ∧
      0 ∉ (getItemsString exStrDict 100 (fun _ => 100) (fun _ => 0) (fun _ => none)
        [0]).refreshed) :=
  ⟨⟨by decide, by decide⟩,
    spec_C5_null_on_zero exNatDict exStrDict 100 100 (fun _ => 100) (fun _ => 0)
      (fun _ => 100) (fun _ => 0) (fun _ => none) (fun _ => none) [0] [5] (by decide)
      0 (by decide) (by decide)⟩

/-- C8: the scalar getter and the string getter write at index `p` the
value belonging to `keys[p]` — resident value on a hit, the source's
value for a refreshed miss, the null value otherwise — and two
positions holding the same key receive the same value. -/
theorem spec_C8_order_preservation (d : Dict α) (ds : Dict String) (now nows : Nat)
    (nowAt jit nowAts jits : Nat → Nat) (src : Nat → Option α)
    (srcs : Nat → Option String) (ids : List Nat) (out0 : List α)
    (hlen : ids.length ≤ out0.length) (p q : Nat) (hp : p < ids.length)
    (hq : q < ids.length) (hdup : ids.get ⟨p, hp⟩ = ids.get ⟨q, hq⟩) :
    (getItemsScalar d now nowAt jit src ids out0).out[p]? =
      some (expectedScalar d now src (ids.get ⟨p, hp⟩)) ∧
    (getItemsScalar d now nowAt jit src ids out0).out[p]? =
      (getItemsScalar d now nowAt jit src ids out0).out[q]? ∧
    (getItemsString ds nows nowAts jits srcs ids).out[p]? =
      some (expectedString ds nows srcs (ids.get ⟨p, hp⟩)) ∧
    (getItemsString ds nows nowAts jits srcs ids).out[p]? =
      (getItemsString ds nows nowAts jits srcs ids).out[q]? := by
  refine ⟨getItemsScalar_out d now nowAt jit src ids out0 hlen p hp, ?_,
    getItemsString_out ds nows nowAts jits srcs ids p hp, ?_⟩
  · rw [getItemsScalar_out d now nowAt jit src ids out0 hlen p hp,
      getItemsScalar_out d now nowAt jit src ids out0 hlen q hq, hdup]
  · rw [getItemsString_out ds nows nowAts jits srcs ids p hp,
      getItemsString_out ds nows nowAts jits srcs ids q hq, hdup]

/-- Witness for C8 at the batch `[1, 5, 1]` with duplicate key 1 at
positions 0 and 2. -/
theorem spec_C8_order_preservation_witness :
    (([1, 5, 1] : List Nat).length ≤ ([0, 0, 0] : List Nat).length ∧
      ([1, 5, 1] : List Nat).get ⟨0, by decide⟩ = ([1, 5, 1] : List Nat).get ⟨2, by decide⟩) ∧
    ((getItemsScalar exNatDict 100 (fun _ => 100) (fun _ => 0)
        (fun k => if k = 1 then some 7 else if k = 5 then some 9 else none)
        [1, 5, 1] [0, 0, 0]).out[0]? =
      some (expectedScalar exNatDict 100
        (fun k => if k = 1 then some 7 else if k = 5 then some 9 else none)
        (([1, 5, 1] : List Nat).get ⟨0, by decide⟩)) ∧
      (getItemsScalar exNatDict 100 (fun _ => 100) (fun _ => 0)
        (fun k => if k = 1 then some 7 else if k = 5 then some 9 else none)
        [1, 5, 1] [0, 0, 0]).out[0]? =
      (getItemsScalar exNatDict 100 (fun _ => 100) (fun _ => 0)
        (fun k => if k = 1 then some 7 else if k = 5 then some 9 else none)
        [1, 5, 1] [0, 0, 0]).out[2]? ∧
      (getItemsString exStrDict 100 (fun _ => 100) (fun _ => 0)
        (fun k => if k = 5 then some "b" else none) [1, 5, 1]).out[0]? =
      some (expectedString exStrDict 100 (fun k => if k = 5 then some "b" else none)
        (([1, 5, 1] : List Nat).get ⟨0, by decide⟩)) ∧
      (getItemsString exStrDict 100 (fun _ => 100) (fun _ => 0)
        (fun k => if k = 5 then some "b" else none) [1, 5, 1]).out[0]? =
      (getItemsString exStrDict 100 (fun _ => 100) (fun _ => 0)
        (fun k => if k = 5 then some "b" else none) [1, 5, 1]).out[2]?) :=
  ⟨⟨by decide, by decide⟩,
    spec_C8_order_preservation exNatDict exStrDict 100 100 (fun _ => 100) (fun _ => 0)
      (fun _ => 100) (fun _ => 0)
      (fun k => if k = 1 then some 7 else if k = 5 then some 9 else none)
      (fun k => if k = 5 then some "b" else none) [1, 5, 1] [0, 0, 0] (by decide)
      0 2 (by decide) (by decide) (by decide)⟩

/-- C9: the scalar batched getter never grows the caller's output
array; every index it writes is below `ids.length`, so if the caller
supplies `out` with `ids.length ≤ out.length` every written index is in
bounds. -/
theorem spec_C9_out_array_bounds (d : Dict α) (now : Nat) (nowAt jit : Nat → Nat)
    (src : Nat → Option α) (ids : List Nat) (out0 : List α)
    (hlen : ids.length ≤ out0.length) :
    (getItemsScalar d now nowAt jit src ids out0).out.length = out0.length ∧
    (∀ j ∈ (getItemsScalar d now nowAt jit src ids out0).written, j < ids.length) ∧
    (∀ j ∈ (getItemsScalar d now nowAt jit src ids out0).written, j < out0.length) := by
  refine ⟨getItemsScalar_len d now nowAt jit src ids out0,
    fun j hj => getItemsScalar_written_lt d now nowAt jit src ids out0 j hj,
    fun j hj =>
      Nat.lt_of_lt_of_le (getItemsScalar_written_lt d now nowAt jit src ids out0 j hj)
        hlen⟩

/-- Witness for C9 at the batch `[1, 0]` against an output of length 3. -/
theorem spec_C9_out_array_bounds_witness :
    ([1, 0] : List Nat).length ≤ ([0, 0, 0] : List Nat).length ∧
    ((getItemsScalar exNatDict 100 (fun _ => 100) (fun _ => 0) (fun _ => some 7)
        [1, 0] [0, 0, 0]).out.length = ([0, 0, 0] : List Nat).length ∧
      (∀ j ∈ (getItemsScalar exNatDict 100 (fun _ => 100) (fun _ => 0) (fun _ => some 7)
        [1, 0] [0, 0, 0]).written, j < ([1, 0] : List Nat).length) ∧
      (∀ j ∈ (getItemsScalar exNatDict 100 (fun _ => 100) (fun _ => 0) (fun _ => some 7)
        [1, 0] [0, 0, 0]).written, j < ([0, 0, 0] : List Nat).length)) :=
  ⟨by decide,
    spec_C9_out_array_bounds exNatDict 100 (fun _ => 100) (fun _ => 0) (fun _ => some 7)
      [1, 0] [0, 0, 0] (by decide)⟩

/-- C10: a source row with key 0 is installed like any other row — the
cell at `slot_of(0)` is overwritten with id 0 and the column slot with
the row's value — yet no lookup returns the stored value: positions
holding key 0 short-circuit to the null value, and any non-zero key
mapping to that slot fails the `cell.id` comparison and is a miss. -/
theorem spec_C10_key_zero_install {σ : Type} (d : Dict α) (nowAt jit : Nat → Nat)
    (onUpd : σ → Nat → Nat → Dict α → σ) (i0 : Nat) (s0 : σ) (v : α) (k : Nat)
    (hk : k ≠ 0) (hcol : getCellIdx d k = getCellIdx d 0) (now' : Nat) :
    (update nowAt jit onUpd d [(0, v)] i0 s0).1.cells (getCellIdx d 0) =
      ⟨0, installExpiry (nowAt i0) d.min_sec d.max_sec (jit i0)⟩ ∧
    (update nowAt jit onUpd d [(0, v)] i0 s0).1.arr (getCellIdx d 0) = v ∧
    outdatedCell (update nowAt jit onUpd d [(0, v)] i0 s0).1 now' k = true ∧
    (∀ (now2 : Nat) (nowAt2 jit2 : Nat → Nat) (src2 : Nat → Option α) (ids : List Nat)
      (out0 : List α), ids.length ≤ out0.length → ∀ (p : Nat) (hp : p < ids.length),
      ids.get ⟨p, hp⟩ = 0 →
      (getItemsScalar (update nowAt jit onUpd d [(0, v)] i0 s0).1 now2 nowAt2 jit2 src2
        ids out0).out[p]? = some d.nullVal) := by
  rw [update_single]
  refine ⟨?_, ?_, ?_, ?_⟩
  · rw [setCell_cells]
    simp
  · rw [setCell_arr, setArr_arr]
    simp
  · have hcell : (setCell (setArr d (getCellIdx d 0) v) (getCellIdx d 0)
        ⟨0, installExpiry (nowAt i0) d.min_sec d.max_sec (jit i0)⟩).cells
          (getCellIdx (setCell (setArr d (getCellIdx d 0) v) (getCellIdx d 0)
            ⟨0, installExpiry (nowAt i0) d.min_sec d.max_sec (jit i0)⟩) k) =
        ⟨0, installExpiry (nowAt i0) d.min_sec d.max_sec (jit i0)⟩ := by
      show (setCell (setArr d (getCellIdx d 0) v) (getCellIdx d 0)
        ⟨0, installExpiry (nowAt i0) d.min_sec d.max_sec (jit i0)⟩).cells
          (getCellIdx d k) = _
      rw [hcol, setCell_cells]
      simp
    simp only [outdatedCell]
    rw [hcell]
    have hbne : ((0 : Nat) != k) = true := bne_iff_ne.mpr (Ne.symm hk)
    simp [hbne]
  · intro now2 nowAt2 jit2 src2 ids out0 hlen p hp hz
    rw [getItemsScalar_out _ now2 nowAt2 jit2 src2 ids out0 hlen p hp, hz]
    simp [expectedScalar, setCell_nullVal, setArr_nullVal]

/-- Witness for C10: a row with key 0 is installed at slot 0 of the
concrete state; key 4 also maps to slot 0 and misses afterwards. -/
theorem spec_C10_key_zero_install_witness :
    ((4 : Nat) ≠ 0 ∧ getCellIdx exNatDictHit 4 = getCellIdx exNatDictHit 0) ∧
    ((update (fun _ => 100) (fun _ => 0) (fun (s : Unit) _ _ (_ : Dict Nat) => s)
        exNatDictHit [(0, 9)] 0 ()).1.cells (getCellIdx exNatDictHit 0) =
      ⟨0, installExpiry ((fun _ => 100 : Nat → Nat) 0) exNatDictHit.min_sec
        exNatDictHit.max_sec ((fun _ => 0 : Nat → Nat) 0)⟩ ∧
      (update (fun _ => 100) (fun _ => 0) (fun (s : Unit) _ _ (_ : Dict Nat) => s)
        exNatDictHit [(0, 9)] 0 ()).1.arr (getCellIdx exNatDictHit 0) = 9 ∧
      outdatedCell (update (fun _ => 100) (fun _ => 0)
        (fun (s : Unit) _ _ (_ : Dict Nat) => s) exNatDictHit [(0, 9)] 0 ()).1 300 4 =
          true ∧
      (∀ (now2 : Nat) (nowAt2 jit2 : Nat → Nat) (src2 : Nat → Option Nat)
        (ids : List Nat) (out0 : List Nat), ids.length ≤ out0.length →
        ∀ (p : Nat) (hp : p < ids.length), ids.get ⟨p, hp⟩ = 0 →
        (getItemsScalar (update (fun _ => 100) (fun _ => 0)
          (fun (s : Unit) _ _ (_ : Dict Nat) => s) exNatDictHit [(0, 9)] 0 ()).1 now2
            nowAt2 jit2 src2 ids out0).out[p]? = some exNatDictHit.nullVal)) :=
  ⟨⟨by decide, by decide⟩,
    spec_C10_key_zero_install exNatDictHit (fun _ => 100) (fun _ => 0)
      (fun (s : Unit) _ _ (_ : Dict Nat) => s) 0 () 9 4 (by decide) (by decide) 300⟩

end CacheDict
